import Mathlib

/-!
Verification of the goalign multiple-sequence-alignment core (package `align`,
files `align/align.go`, `align/const.go`, and `distance/k2p.go`) against its
natural-language specification.

The Go code is shallowly embedded as follows.

* A Go `*seq` pointer is modelled by an index into a heap `store : List seq`.
  The Go `seqbag` keeps a name-keyed map `seqmap` and an insertion-order slice
  `seqs`, both holding pointers to the same objects; here both hold store
  indices, so aliased mutation is modelled by updating the store entry.
* Go `int` is `Int` (the alignment length uses the sentinel -1), Go `rune` is
  `Char`, Go `float64` rates/cutoffs are `ℚ` where only comparisons and exact
  arithmetic matter, and `ℝ` where logarithms are taken.
* A Go call that can set an `error`, call `io.ExitWithMessage`, or hit an
  out-of-bounds slice access is modelled by the `Eff` type below.  `Eff.fail`
  carries the returned value or mutated receiver state together with the
  error message, matching Go multiple return values; `Eff.exit` models
  `io.ExitWithMessage` (process termination); `Eff.crash` models a runtime
  panic (out-of-range index, negative `strings.Repeat` count).
* Element reads that the rectangularity invariant keeps in bounds are
  modelled with `List.getD`; reads whose bounds behaviour a claim depends on
  (`Entropy`) use `List.getElem?` and produce `Eff.crash` when out of range.

Functions of this repository that the claims need but whose defining file is
absent from the sources (`seqbag.go`, `distance/dna_models.go`) are modelled
from the specification and marked `Modelled from the spec:` in their doc
comments.
-/

namespace Goalign

/-- Alphabet tags, from `align/const.go`. -/
def AMINOACIDS : Int := 0

/-- Nucleotide alphabet tag, from `align/const.go`. -/
def NUCLEOTIDS : Int := 1

/-- Tag for sequences that could be both alphabets, from `align/const.go`. -/
def BOTH : Int := 2

/-- Unknown alphabet tag, from `align/const.go`. -/
def UNKNOWN : Int := 3

/-- The gap symbol `-`, from `align/const.go`. -/
def GAP : Char := '-'

/-- The match symbol `.`, from `align/const.go`. -/
def POINT : Char := '.'

/-- The `*` symbol, from `align/const.go`. -/
def OTHER : Char := '*'

/-- Modelled from the spec: the amino-acid generic "any" symbol `ALL_AMINO`
(declared in a const file absent from the sources; only its existence and
being distinct from the nucleotide one matter to the claims). -/
def ALL_AMINO : Char := 'X'

/-- Modelled from the spec: the nucleotide generic "any" symbol `ALL_NUCLE`
(declared in a const file absent from the sources). -/
def ALL_NUCLE : Char := 'N'

/-- A named sequence: Go struct `seq` (fields `name`, `sequence`, `comment`),
used through `align/align.go`. -/
structure seq where
  name : String
  sequence : List Char
  comment : String
deriving DecidableEq, Repr

/-- The default object returned by in-bounds-guarded heap reads. -/
def emptySeq : seq := ⟨"", [], ""⟩

/-- The Go `align` struct embedding `seqbag`: `seqmap` (name to sequence
pointer), `seqs` (insertion-order sequence pointers), `alphabet`, and the
alignment `length` (-1 when empty).  Pointers are store indices. -/
structure align where
  store : List seq
  seqmap : List (String × Nat)
  seqs : List Nat
  alphabet : Int
  length : Int
deriving DecidableEq, Repr

/-- Outcome of a Go call: normal return, return with a non-nil error (the
mutated receiver or returned value is still carried, as in Go), a runtime
panic, or process termination through `io.ExitWithMessage`. -/
inductive Eff (α : Type) where
  | ok (value : α)
  | fail (msg : String) (value : α)
  | crash
  | exit (msg : String)
deriving DecidableEq, Repr

/-- The state carried by a normal or error return, if any. -/
def Eff.state {α : Type} : Eff α → Option α
  | .ok v => some v
  | .fail _ v => some v
  | .crash => none
  | .exit _ => none

/-- Whether the call terminated the process through `io.ExitWithMessage`. -/
def Eff.isExit {α : Type} : Eff α → Bool
  | .exit _ => true
  | _ => false

/-- `NbSequences`: number of sequences in the bag (`len(sb.seqs)`). -/
def NbSequences (a : align) : Nat := a.seqs.length

/-- The sequences of the alignment in insertion order, dereferencing the
store indices held by `seqs`. -/
def rows (a : align) : List seq := a.seqs.map (fun i => a.store.getD i emptySeq)

/-- Keys of the name map. -/
def keys (m : List (String × Nat)) : List String := m.map Prod.fst

/-- Go map lookup `sb.seqmap[name]` (first matching entry). -/
def lookupName (m : List (String × Nat)) (name : String) : Option Nat :=
  (m.find? (fun p => p.1 == name)).map Prod.snd

/-- Structural well-formedness of the pointer model: the insertion-order list
holds distinct, in-bounds store indices.  Go guarantees this because every
`AddSequenceChar` appends a freshly allocated object. -/
def Valid (a : align) : Prop :=
  a.seqs.Nodup ∧ ∀ i ∈ a.seqs, i < a.store.length

/-- The map/list duality the specification asserts: the name map holds
exactly the (name, pointer) pairs of the insertion-order list, and names are
pairwise distinct. -/
def SyncMap (a : align) : Prop :=
  a.seqmap = a.seqs.map (fun i => ((a.store.getD i emptySeq).name, i)) ∧
    (a.seqs.map (fun i => (a.store.getD i emptySeq).name)).Nodup

/-- The rectangularity invariant of the specification: `length == -1` (empty
alignment) or every sequence of the alignment has exactly `length` symbols. -/
def Inv (a : align) : Prop :=
  (a.length = -1 ∧ a.seqs = []) ∨
    (0 ≤ a.length ∧ ∀ i ∈ a.seqs, ((a.store.getD i emptySeq).sequence.length : Int) = a.length)

instance : DecidablePred Valid := fun a => by unfold Valid; infer_instance

instance : DecidablePred SyncMap := fun a => by unfold SyncMap; infer_instance

instance : DecidablePred Inv := fun a => by unfold Inv; infer_instance

/-- Zero-padded rename suffix `"%04d"` used on name collisions. -/
def pad4 (n : Nat) : String :=
  let s := toString n
  String.mk (List.replicate (4 - s.length) '0') ++ s

/-- The candidate replacement name `name_%04d` tried by `AddSequenceChar`. -/
def renamed (name : String) (idx : Nat) : String := name ++ "_" ++ pad4 idx

/-- A name longer than every key of the map, hence certainly absent from it;
only used to make `freshName` total (the Go collision loop always finds a
fresh `name_%04d` before exhausting `keys.length + 1` distinct candidates,
so this branch is unreachable). -/
def fallbackName (ks : List String) (name : String) : String :=
  ks.foldl (fun acc k => acc ++ k) (name ++ "_")

/-- The renaming loop of `AddSequenceChar` (align.go lines 117-127): try
`name`, then `name_0001`, `name_0002`, ... until the candidate is not a key
of the sequence map. -/
def freshName (ks : List String) (name : String) : String :=
  let cands := name :: (List.range (ks.length + 1)).map (fun i => renamed name (i + 1))
  (cands.find? (fun c => decide (c ∉ ks))).getD (fallbackName ks name)

/-- `AddSequenceChar` (align.go lines 116-137): rename on collision, reject a
sequence whose length differs from a non-empty alignment's length without
mutating, otherwise append the sequence to the store, the name map and the
insertion-order list and record the length. -/
def AddSequenceChar (a : align) (name : String) (sequence : List Char)
    (comment : String) : Eff align :=
  let tmpname := freshName (keys a.seqmap) name
  if a.length ≠ -1 ∧ a.length ≠ (sequence.length : Int) then
    Eff.fail ("Sequence " ++ tmpname ++ " does not have same length as other sequences") a
  else
    Eff.ok { a with
      length := (sequence.length : Int)
      store := a.store ++ [⟨tmpname, sequence, comment⟩]
      seqmap := a.seqmap ++ [(tmpname, a.store.length)]
      seqs := a.seqs ++ [a.store.length] }

/-- In-place mutation of every sequence reachable from the insertion-order
list, as done by the Go loops `for _, seq := range a.seqs`.  The function
receives the position of the sequence in the list (used by `Compress`) and
the current object, and the store entry is overwritten, so aliased readers
observe the update. -/
def updStore (st : List seq) (ps : List (Nat × Nat)) (f : Nat → seq → seq) : List seq :=
  ps.foldl (fun s p => s.set p.2 (f p.1 (s.getD p.2 emptySeq))) st

/-- Apply `f` to every sequence of the alignment in place (list position is
passed to `f`). -/
def updateRows (a : align) (f : Nat → seq → seq) : align :=
  { a with store := updStore a.store a.seqs.enum f }

/-- One sequence trimmed by `TrimSequences`: Go slicing
`seq.sequence[trimsize:len]` or `seq.sequence[0 : len-trimsize]`. -/
def trimSeq (trimsize : Nat) (fromStart : Bool) (s : seq) : seq :=
  if fromStart then { s with sequence := s.sequence.drop trimsize }
  else { s with sequence := s.sequence.take (s.sequence.length - trimsize) }

/-- `TrimSequences` (align.go lines 494-510): reject a negative trim size or
one that is not smaller than the alignment length, otherwise drop `trimsize`
symbols from the start or the end of every sequence and shorten the
alignment accordingly. -/
def TrimSequences (a : align) (trimsize : Int) (fromStart : Bool) : Eff align :=
  if trimsize < 0 then Eff.fail "Trim size must not be < 0" a
  else if trimsize ≥ a.length then
    Eff.fail ("Trim size must be < alignment length (" ++ toString a.length ++ ")") a
  else
    Eff.ok { updateRows a (fun _ s => trimSeq trimsize.toNat fromStart s) with
      length := a.length - trimsize }

/-- One sequence masked by `Mask`: positions of `[start, start+length)` that
are below the alignment width are replaced by `rep` (the Go loop writes
`seq.sequence[i]` for `start <= i < start+length` and `i < a.Length()`;
under the rectangularity invariant these writes are in bounds). -/
def maskSeq (rep : Char) (start length alen : Int) (s : seq) : seq :=
  { s with sequence := s.sequence.mapIdx (fun i c =>
      if start ≤ (i : Int) ∧ (i : Int) < start + length ∧ (i : Int) < alen then rep else c) }

/-- `Mask` (align.go lines 644-669): reject a negative start or a start
beyond the width; choose the replacement symbol from the alphabet, setting
the error — but not returning — when the alphabet is neither amino-acid nor
nucleotide (the Go code then masks with the initial `'.'` replacement
anyway); mask the clipped range in every sequence. -/
def Mask (a : align) (start length : Int) : Eff align :=
  if start < 0 then Eff.fail "Mask: Start position cannot be < 0" a
  else if start > a.length then Eff.fail "Mask: Start position cannot be > align length" a
  else
    let repErr : Option String × Char :=
      if a.alphabet = AMINOACIDS then (none, ALL_AMINO)
      else if a.alphabet = NUCLEOTIDS then (none, ALL_NUCLE)
      else (some "Mask: Cannot mask alignment, wrong alphabet", '.')
    let a' := updateRows a (fun _ s => maskSeq repErr.2 start length a.length s)
    match repErr.1 with
    | some msg => Eff.fail msg a'
    | none => Eff.ok a'

/-- A cutoff outside `[0,1]` is reset to 0 (align.go lines 223-225 and
271-273). -/
def cutoffNorm (cutoff : ℚ) : ℚ := if cutoff < 0 ∨ cutoff > 1 then 0 else cutoff

/-- The gap-removal criterion shared by `RemoveGapSites` and
`RemoveGapSeqs`: a positive cutoff removes when the gap count reaches
`cutoff * total`, a zero cutoff removes when any gap is present. -/
def gapQualifies (c : ℚ) (nbgaps : Nat) (total : ℚ) : Bool :=
  decide ((0 < c ∧ (nbgaps : ℚ) ≥ c * total) ∨ (c = 0 ∧ 0 < nbgaps))

/-- Number of gaps of one sequence over the first `n` sites (the Go loop
reads `sequence[site]` for `site < a.Length()`; in bounds under the
rectangularity invariant). -/
def countGapsRow (s : seq) (n : Nat) : Nat :=
  ((List.range n).filter (fun site => s.sequence.getD site ' ' = GAP)).length

/-- Number of gaps in the column `site` (align.go lines 233-238). -/
def gapsAtSite (a : align) (site : Nat) : Nat :=
  ((rows a).filter (fun s => s.sequence.getD site ' ' = GAP)).length

/-- The `toremove` list of `RemoveGapSites`: qualifying sites in increasing
order (the Go `sort.Ints` is the identity on it). -/
def toremoveSites (a : align) (c : ℚ) : List Nat :=
  (List.range a.length.toNat).filter (fun site => gapQualifies c (gapsAtSite a site) (NbSequences a : ℚ))

/-- The `firstcontinuous` counter of `RemoveGapSites`: advanced past a site
exactly when the site qualifies and extends the initial contiguous
qualifying run (align.go lines 229, 241-244). -/
def firstContinuous (a : align) (c : ℚ) : Int :=
  (List.range a.length.toNat).foldl
    (fun fc site =>
      if gapQualifies c (gapsAtSite a site) (NbSequences a : ℚ) ∧ (site : Int) = fc + 1
      then fc + 1 else fc)
    (-1)

/-- The backward removal pass of `RemoveGapSites` (align.go lines 249-260):
walk `toremove` from the end, shrinking `lastcontinuous` over the final
contiguous qualifying run, and keep a site when `ends` is off, or the site
sits in the final run, or at or before `firstcontinuous`.  Returns the
removed sites in processing (decreasing) order. -/
def endsFilter (ends : Bool) (fc : Int) : List Nat → Int → List Nat
  | [], _ => []
  | p :: rest, lc =>
    let lc' := if (p : Int) = lc - 1 then lc - 1 else lc
    if !ends || decide ((p : Int) = lc') || decide ((p : Int) ≤ fc)
    then p :: endsFilter ends fc rest lc'
    else endsFilter ends fc rest lc'

/-- The sites actually removed by `RemoveGapSites`, in decreasing order. -/
def removedSites (a : align) (c : ℚ) (ends : Bool) : List Nat :=
  endsFilter ends (firstContinuous a c) (toremoveSites a c).reverse a.length

/-- One sequence with the removed sites spliced out back to front
(align.go line 257). -/
def removeSitesRow (rl : List Nat) (s : seq) : seq :=
  { s with sequence := rl.foldl (fun sq p => sq.eraseIdx p) s.sequence }

/-- `RemoveGapSites` (align.go lines 221-262): remove the qualifying columns
(from the ends only, when `ends` is set) from every sequence, back to front,
and decrease the length by the number of removed columns.  The Go code
splices all sequences at one site before moving to the next site; splices of
distinct rows commute, so removing each row's whole site list at once yields
the same state. -/
def RemoveGapSites (a : align) (cutoff : ℚ) (ends : Bool) : align :=
  { updateRows a (fun _ s => removeSitesRow (removedSites a (cutoffNorm cutoff) ends) s) with
    length := a.length - ((removedSites a (cutoffNorm cutoff) ends).length : Int) }

/-- `RemoveGapSeqs` (align.go lines 269-292): determine the list positions
whose row reaches the gap cutoff (fraction over the alignment length) and
splice them out of the insertion-order list, back to front.  The name map
and the store are left untouched. -/
def RemoveGapSeqs (a : align) (cutoff : ℚ) : align :=
  let c := cutoffNorm cutoff
  let toremove := (List.range (NbSequences a)).filter (fun p =>
    gapQualifies c (countGapsRow ((rows a).getD p emptySeq) a.length.toNat) (a.length : ℚ))
  { a with seqs := toremove.reverse.foldl (fun l p => l.eraseIdx p) a.seqs }

/-- A concrete nucleotide alignment with two sequences `AB` and `CD`
(width 2), used to instantiate theorems with hypotheses. -/
def exTrim : align :=
  { store := [⟨"s1", ['A', 'B'], ""⟩, ⟨"s2", ['C', 'D'], ""⟩]
    seqmap := [("s1", 0), ("s2", 1)]
    seqs := [0, 1]
    alphabet := 1
    length := 2 }

/-- A concrete alignment with an unknown alphabet and one sequence `AA`,
reachable through `NewAlign(UNKNOWN)` followed by `AddSequenceChar`. -/
def exMaskU : align :=
  { store := [⟨"s1", ['A', 'A'], ""⟩]
    seqmap := [("s1", 0)]
    seqs := [0]
    alphabet := 3
    length := 2 }

/-- A concrete nucleotide alignment with sequences `A: AA` and `B: --`
(the second is entirely gapped). -/
def exGapSeqs : align :=
  { store := [⟨"A", ['A', 'A'], ""⟩, ⟨"B", ['-', '-'], ""⟩]
    seqmap := [("A", 0), ("B", 1)]
    seqs := [0, 1]
    alphabet := 1
    length := 2 }

/-- Eligibility of a symbol for the entropy tally (align.go line 754):
`Other` and `Match` are always excluded, `Gap` only when `removegaps`. -/
def eligible (removegaps : Bool) (c : Char) : Bool :=
  decide (c ≠ OTHER ∧ c ≠ POINT ∧ (removegaps = false ∨ c ≠ GAP))

/-- `Entropy` (align.go lines 743-774).  The bound check accepts
`site == length` (the Go comparison is `site > a.Length()`, not `>=`); the
subsequent reads `a.seqs[seq].sequence[site]` then run out of range, which
is a Go runtime panic, modelled by `Eff.crash`.  On a failed check Go
returns `(1.0, error)`.  With zero eligible symbols it returns the NaN
sentinel (modelled by `none`) and no error; otherwise the Shannon entropy
over the occurrence map (the Go map iteration order is arbitrary; the sum
does not depend on it, and the model fixes first-appearance order).
`entropyVal` is the tally-and-sum part, over the eligible symbols. -/
noncomputable def entropyVal (sel : List Char) : Eff (Option ℝ) :=
  if sel.length = 0 then Eff.ok none
  else
    Eff.ok (some ((sel.dedup.map (fun c => (c, sel.count c))).foldl
      (fun e p => e - ((p.2 : ℝ) / (sel.length : ℝ)) * Real.log ((p.2 : ℝ) / (sel.length : ℝ)))
      0))

noncomputable def Entropy (a : align) (site : Int) (removegaps : Bool) :
    Eff (Option ℝ) :=
  if site < 0 ∨ site > a.length then
    Eff.fail "Site position is outside alignment" (some 1)
  else if ((rows a).map (fun s => s.sequence[site.toNat]?)).any (fun r => r.isNone) then
    Eff.crash
  else
    entropyVal ((((rows a).map (fun s => s.sequence[site.toNat]?)).filterMap id).filter
      (eligible removegaps))

/-- A Go `float64` as produced by dividing two tallies: not-a-number
(`0/0`), positive infinity (`n/0`, `n > 0`), or a finite value. -/
inductive GoFloat where
  | nan
  | pinf
  | val (q : ℚ)
deriving DecidableEq, Repr

/-- Go division `float64(a)/float64(b)` of two non-negative counts. -/
def natDiv (a b : Nat) : GoFloat :=
  if b = 0 then (if a = 0 then GoFloat.nan else GoFloat.pinf)
  else GoFloat.val ((a : ℚ) / (b : ℚ))

/-- The non-special symbols of the column `site` (the alleles tallied by
`AvgAllelesPerSite`, align.go lines 726-732). -/
def colNonspecial (a : align) (site : Nat) : List Char :=
  ((rows a).map (fun s => s.sequence.getD site ' ')).filter
    (fun c => decide (c ≠ GAP ∧ c ≠ POINT ∧ c ≠ OTHER))

/-- Per-column tally of `AvgAllelesPerSite`: number of distinct non-special
symbols, and whether the column was entirely special (`onlygap`). -/
def siteStat (a : align) (site : Nat) : Nat × Bool :=
  ((colNonspecial a site).dedup.length, decide (colNonspecial a site = []))

/-- `AvgAllelesPerSite` (align.go lines 720-739): for every column, tally
the distinct non-gap, non-match, non-`*` symbols; columns with none of
those do not count as sites; return total alleles divided by the number of
counted sites. -/
def AvgAllelesPerSite (a : align) : GoFloat :=
  natDiv (((List.range a.length.toNat).map (siteStat a)).map Prod.fst).sum
    (((List.range a.length.toNat).map (siteStat a)).filter (fun p => !p.2)).length

/-- A concrete nucleotide alignment with one sequence `A` (width 1). -/
def exEnt : align :=
  { store := [⟨"s1", ['A'], ""⟩]
    seqmap := [("s1", 0)]
    seqs := [0]
    alphabet := 1
    length := 1 }

/-- A concrete nucleotide alignment whose two sequences are entirely
gapped. -/
def exAllGap : align :=
  { store := [⟨"s1", ['-', '-'], ""⟩, ⟨"s2", ['-', '-'], ""⟩]
    seqmap := [("s1", 0), ("s2", 1)]
    seqs := [0, 1]
    alphabet := 1
    length := 2 }

/-- The standard genetic code table `standardcode` from `align/const.go`,
as an association list. -/
def standardcode : List (String × Char) :=
  [("---", '-'),
   ("GCT", 'A'), ("GCC", 'A'), ("GCA", 'A'), ("GCG", 'A'),
   ("TTA", 'L'), ("TTG", 'L'), ("CTT", 'L'), ("CTC", 'L'), ("CTA", 'L'), ("CTG", 'L'),
   ("CGT", 'R'), ("CGC", 'R'), ("CGA", 'R'), ("CGG", 'R'), ("AGA", 'R'), ("AGG", 'R'),
   ("AAA", 'K'), ("AAG", 'K'),
   ("AAT", 'N'), ("AAC", 'N'),
   ("ATG", 'M'),
   ("GAT", 'D'), ("GAC", 'D'),
   ("TTT", 'F'), ("TTC", 'F'),
   ("TGT", 'C'), ("TGC", 'C'),
   ("CCT", 'P'), ("CCC", 'P'), ("CCA", 'P'), ("CCG", 'P'),
   ("CAA", 'Q'), ("CAG", 'Q'),
   ("TCT", 'S'), ("TCC", 'S'), ("TCA", 'S'), ("TCG", 'S'), ("AGT", 'S'), ("AGC", 'S'),
   ("GAA", 'E'), ("GAG", 'E'),
   ("ACT", 'T'), ("ACC", 'T'), ("ACA", 'T'), ("ACG", 'T'),
   ("GGT", 'G'), ("GGC", 'G'), ("GGA", 'G'), ("GGG", 'G'),
   ("TGG", 'W'),
   ("CAT", 'H'), ("CAC", 'H'),
   ("TAT", 'Y'), ("TAC", 'Y'),
   ("ATT", 'I'), ("ATC", 'I'), ("ATA", 'I'),
   ("GTT", 'V'), ("GTC", 'V'), ("GTA", 'V'), ("GTG", 'V'),
   ("TAA", '*'), ("TGA", '*'), ("TAG", '*')]

/-- Modelled from the spec: the genetic-code selector `geneticCode`
(defined in a file absent from the sources) returns the selected code table
and fails on an unknown identifier; identifier 0 is the standard table. -/
def geneticCode (code : Int) : Option (List (String × Char)) :=
  if code = 0 then some standardcode else none

/-- The Go decrement-and-wrap of the reading-frame phase:
`phase--; if phase < 0 { phase = 2 }`. -/
def goDec (p : Int) : Int := if p - 1 < 0 then 2 else p - 1

/-- Codon translation in `Stops` (align.go lines 872-876): upper-case the
codon, replace `U` by `T`, look it up in the code table, `X` if absent. -/
def lookupCodon (code : List (String × Char)) (cs : List Char) : Char :=
  let str := String.mk (cs.map (fun c => if c.toUpper = 'U' then 'T' else c.toUpper))
  (((code.find? (fun p => p.1 == str)).map Prod.snd).getD 'X')

/-- The inner site loop of `Stops` (align.go lines 844-883) for one
non-reference sequence: thread the reading-frame phase and the `started`
flag (which Go declares outside the per-sequence loop), the ungapped
position `pos`, and the current codon buffer; stop and report `pos` at the
first in-frame stop codon.  Returns the final phase, the final `started`
flag and the reported position (-1 when no stop was found). -/
def stopsLoop (code : List (String × Char)) (sgai : Bool) (ref sq : List Char) :
    List Nat → Int → Bool → Nat → List Char → Int × Bool × Int
  | [], phase, started, _, _ => (phase, started, -1)
  | i :: rest, phase, started, pos, codon =>
    let phase1 := if ref.getD i ' ' = GAP then (phase + 1) % 3 else phase
    let stepGap : Bool := sq.getD i ' ' = GAP
    let dec2 : Bool := !stepGap && !started && sgai && decide (phase1 ≠ 0)
    let phase2 := if stepGap || dec2 then goDec phase1 else phase1
    let started2 := if stepGap || dec2 then started else true
    if stepGap = false ∧ (sgai = false ∨ started2 = true) then
      let codon2 := codon ++ [sq.getD i ' ']
      if codon2.length = 3 then
        if lookupCodon code codon2 = '*' then (phase2, started2, ((pos + 1 : Nat) : Int))
        else stopsLoop code sgai ref sq rest phase2 started2 (pos + 1) []
      else stopsLoop code sgai ref sq rest phase2 started2 (pos + 1) codon2
    else stopsLoop code sgai ref sq rest phase2 started2 pos codon

/-- The outer sequence loop of `Stops` (align.go lines 839-884): process the
non-reference sequences in order, threading `phase` and `started` from one
sequence to the next exactly as the Go code does (both are declared before
the loop, lines 837-838). -/
def stopsOuter (code : List (String × Char)) (sgai : Bool) (ref : List Char)
    (sites : List Nat) : List seq → Int → Bool → List Int
  | [], _, _ => []
  | sq :: rest, phase, started =>
    match stopsLoop code sgai ref sq.sequence sites phase started 0 [] with
    | (phase2, started2, st) => st :: stopsOuter code sgai ref sites rest phase2 started2

/-- `Stops` (align.go lines 827-886): resolve the genetic code (returning
its error when unknown), then scan every non-reference sequence against row
0 over the sites `0 .. length-3`.  Entry 0 of the result is the zero the Go
`make` put there for the reference row.  With no sequences at all the read
`a.seqs[0]` panics. -/
def Stops (a : align) (sgai : Bool) (gcode : Int) : Eff (List Int) :=
  match geneticCode gcode with
  | none => Eff.fail "Unknown genetic code" []
  | some code =>
    match rows a with
    | [] => Eff.crash
    | ref :: others =>
      Eff.ok (0 :: stopsOuter code sgai ref.sequence
        (List.range (a.length - 2).toNat) others 0 false)

/-- Three-row alignment: an ungapped reference, an ungapped second row
`x`, and a third row `y` starting with a gap. -/
def exStopsA : align :=
  { store := [⟨"ref", ['A', 'A', 'A', 'A', 'A', 'A', 'A', 'A'], ""⟩,
              ⟨"x", ['A', 'A', 'A', 'A', 'A', 'A', 'A', 'A'], ""⟩,
              ⟨"y", ['-', 'T', 'A', 'A', 'A', 'A', 'A', 'A'], ""⟩]
    seqmap := [("ref", 0), ("x", 1), ("y", 2)]
    seqs := [0, 1, 2]
    alphabet := 1
    length := 8 }

/-- The same alignment without the row `x`: the reference and `y` only. -/
def exStopsB : align :=
  { store := [⟨"ref", ['A', 'A', 'A', 'A', 'A', 'A', 'A', 'A'], ""⟩,
              ⟨"y", ['-', 'T', 'A', 'A', 'A', 'A', 'A', 'A'], ""⟩]
    seqmap := [("ref", 0), ("y", 1)]
    seqs := [0, 1]
    alphabet := 1
    length := 8 }

/-- `NewAlign` (align.go lines 81-97): accept the three known alphabets,
coerce `BOTH` to nucleotides, and call `io.ExitWithMessage` — terminating
the process — on anything else. -/
def NewAlign (alphabet : Int) : Eff align :=
  if alphabet = AMINOACIDS ∨ alphabet = NUCLEOTIDS ∨ alphabet = UNKNOWN then
    Eff.ok { store := [], seqmap := [], seqs := [], alphabet := alphabet, length := -1 }
  else if alphabet = BOTH then
    Eff.ok { store := [], seqmap := [], seqs := [], alphabet := NUCLEOTIDS, length := -1 }
  else Eff.exit "Unexpected sequence alphabet type"

/-- Go conversion `int(q)` of a float: truncation toward zero
(`Int.tdiv` of the numerator by the denominator). -/
def goInt (q : ℚ) : Int := Int.tdiv q.num (q.den : Int)

/-- The pre-shuffle control flow of `ShuffleSites` (align.go lines
157-183), in source order: the two rate checks call `io.ExitWithMessage`
(lines 161, 164); then both branches of lines 170-176 call
`rand.Perm(a.Length())`, whose `make([]int, n)` panics on a negative
count, so an empty alignment (`Length() == -1`) crashes here before the
site-quota check; only then does line 180 compare the two site quotas
against the length and call `io.ExitWithMessage` (line 181).  (The
`make([]string, ...)` of line 178 takes `int(roguerate * NbSequences())`,
nonnegative once line 163 has passed, and never panics.)  The random
shuffling that follows on success is elided (it mutates symbols but can
neither fail nor exit, and no claim depends on the shuffled values). -/
def ShuffleSitesChecks (a : align) (rate roguerate : ℚ) : Eff Unit :=
  if rate < 0 ∨ rate > 1 then Eff.exit "Shuffle site rate must be >=0 and <=1"
  else if roguerate < 0 ∨ roguerate > 1 then Eff.exit "Shuffle rogue rate must be >=0 and <=1"
  else if a.length < 0 then Eff.crash
  else
    if goInt (rate * (1 - rate) * (a.length : ℚ)) + goInt (rate * (a.length : ℚ)) > a.length then
      Eff.exit ("Too many sites to shuffle ("
        ++ toString (goInt (rate * (1 - rate) * (a.length : ℚ))) ++ "+"
        ++ toString (goInt (rate * (a.length : ℚ))) ++ ">" ++ toString a.length ++ ")")
    else Eff.ok ()

/-- The empty nucleotide alignment `NewAlign(NUCLEOTIDS)` produces. -/
def exEmpty : align :=
  { store := [], seqmap := [], seqs := [], alphabet := 1, length := -1 }

/-- Lexicographic order on column patterns: the order in which the radix
tree of `Compress` walks its keys. -/
def lexLe : List Char → List Char → Bool
  | [], _ => true
  | _ :: _, [] => false
  | a :: as, b :: bs => if a = b then lexLe as bs else decide (a < b)

/-- The column pattern at `site`: the tuple of the symbols of every
sequence at that site, in row order (align.go lines 1051-1055). -/
def column (a : align) (site : Nat) : List Char :=
  (rows a).map (fun s => s.sequence.getD site ' ')

/-- All column patterns of the alignment, in site order. -/
def columns (a : align) : List (List Char) :=
  (List.range a.length.toNat).map (column a)

/-- The distinct column patterns in radix-walk (lexicographic) order. -/
def compressPats (a : align) : List (List Char) :=
  ((columns a).dedup).mergeSort lexLe

/-- `Compress` (align.go lines 1044-1081): group identical columns with a
radix tree, then walk the distinct patterns in key order, emitting each
pattern's multiplicity as its weight and rewriting column `k` of every
sequence to the `k`-th pattern; finally truncate every sequence to the
number of distinct patterns and set the length accordingly.  Returns the
weights together with the rewritten alignment. -/
def Compress (a : align) : List Nat × align :=
  (compressPats a |>.map (fun p => (columns a).count p),
   { updateRows a (fun j s =>
       { s with sequence := compressPats a |>.map (fun p => p.getD j ' ') }) with
     length := ((compressPats a).length : Int) })

/-- A 2-by-3 nucleotide alignment whose first and third columns coincide. -/
def exCompress : align :=
  { store := [⟨"s1", ['A', 'B', 'A'], ""⟩, ⟨"s2", ['C', 'D', 'C'], ""⟩]
    seqmap := [("s1", 0), ("s2", 1)]
    seqs := [0, 1]
    alphabet := 1
    length := 3 }

/-- Whether the two nucleotides form a transition (purine-purine
`A`/`G` or pyrimidine-pyrimidine `C`/`T` exchange). -/
def isTransition (c1 c2 : Char) : Bool :=
  decide ((c1 = 'A' ∧ c2 = 'G') ∨ (c1 = 'G' ∧ c2 = 'A') ∨
    (c1 = 'C' ∧ c2 = 'T') ∨ (c1 = 'T' ∧ c2 = 'C'))

/-- Whether the symbol is one of the four unambiguous nucleotides. -/
def isNucleotide (c : Char) : Bool := decide (c = 'A' ∨ c = 'C' ∨ c = 'G' ∨ c = 'T')

/-- Modelled from the spec: `countMutations` (file `distance/dna_models.go`,
absent from the sources) tallies, over the sites marked by the
selected-sites mask where both symbols are nucleotides, the weighted count
of transitions, of transversions, and the weighted total of compared sites
(weights default to 1 per site when absent).  Returns
`(transitions, transversions, total)`; the two return values `k2p.go`
discards are elided. -/
def countMutations (seq1 seq2 : List Char) (selected : List Bool)
    (weights : Option (List ℚ)) : ℚ × ℚ × ℚ :=
  (List.range (min seq1.length seq2.length)).foldl
    (fun acc i =>
      if selected.getD i false ∧ isNucleotide (seq1.getD i ' ')
          ∧ isNucleotide (seq2.getD i ' ') then
        if seq1.getD i ' ' ≠ seq2.getD i ' ' then
          if isTransition (seq1.getD i ' ') (seq2.getD i ' ') then
            (acc.1 + (weights.map (fun ws => ws.getD i 1)).getD 1, acc.2.1,
              acc.2.2 + (weights.map (fun ws => ws.getD i 1)).getD 1)
          else
            (acc.1, acc.2.1 + (weights.map (fun ws => ws.getD i 1)).getD 1,
              acc.2.2 + (weights.map (fun ws => ws.getD i 1)).getD 1)
        else (acc.1, acc.2.1, acc.2.2 + (weights.map (fun ws => ws.getD i 1)).getD 1)
      else acc)
    (0, 0, 0)

/-- The transition proportion `trS/total` of `K2PModel.Distance`
(k2p.go line 26), as the float division of the two tallies (division by a
zero total yields 0 here where Go yields NaN; the final result, 0, agrees —
see `K2PDistance`). -/
noncomputable def k2pP (seq1 seq2 : List Char) (selected : List Bool)
    (weights : Option (List ℚ)) : ℝ :=
  ((countMutations seq1 seq2 selected weights).1 : ℝ)
    / ((countMutations seq1 seq2 selected weights).2.2 : ℝ)

/-- The transversion proportion `trV/total` of `K2PModel.Distance`. -/
noncomputable def k2pQ (seq1 seq2 : List Char) (selected : List Bool)
    (weights : Option (List ℚ)) : ℝ :=
  ((countMutations seq1 seq2 selected weights).2.1 : ℝ)
    / ((countMutations seq1 seq2 selected weights).2.2 : ℝ)

/-- The raw K2P value `-0.5*ln(1-2P-Q) - 0.25*ln(1-2Q)` (k2p.go line 27).
`Real.log` returns 0 on non-positive arguments where `math.Log` returns NaN
or `-Inf`; in every such case both the Go code and this model fall through
the `dist > 0` clamp the same way except that Go may return `+Inf` where
the model returns a finite non-negative value — both non-negative. -/
noncomputable def k2pFormula (seq1 seq2 : List Char) (selected : List Bool)
    (weights : Option (List ℚ)) : ℝ :=
  -0.5 * Real.log (1 - 2 * k2pP seq1 seq2 selected weights - k2pQ seq1 seq2 selected weights)
    - 0.25 * Real.log (1 - 2 * k2pQ seq1 seq2 selected weights)

/-- `K2PModel.Distance` (k2p.go lines 24-33): the raw K2P value clamped to
0 when not positive.  There is no error path: the function is total. -/
noncomputable def K2PDistance (seq1 seq2 : List Char) (selected : List Bool)
    (weights : Option (List ℚ)) : ℝ :=
  if k2pFormula seq1 seq2 selected weights > 0 then k2pFormula seq1 seq2 selected weights
  else 0

/-- The alignment with the symbols `xs` appended in place to the sequence
object at store index `i`. -/
def padRow (a : align) (i : Nat) (xs : List Char) : align :=
  { a with
    store := a.store.set i
      ({ a.store.getD i emptySeq with
         sequence := (a.store.getD i emptySeq).sequence ++ xs }) }

/-- Modelled from the spec: `appendToSequence` (file `seqbag.go`, absent
from the sources) appends the given symbols to the sequence with the given
name, through the name map — so the object shared with the insertion-order
list is extended — and reports an error when the name is absent. -/
def appendToSequence (a : align) (name : String) (xs : List Char) : Eff align :=
  match lookupName a.seqmap name with
  | none => Eff.fail ("Sequence with name " ++ name ++ " not found in seqbag") a
  | some i => Eff.ok (padRow a i xs)

/-- `strings.Repeat(string(GAP), n)`: Go panics on a negative count (which
`Concat` triggers when the other alignment is empty, `Length() == -1`). -/
def goRepeat (c : Char) (n : Int) : Eff (List Char) :=
  if n < 0 then Eff.crash else Eff.ok (List.replicate n.toNat c)

/-- The first loop of `Concat` (align.go lines 1094-1101): every sequence
of `a` absent from `c` gets a full-gap run of `c`'s width appended; the
`appendToSequence` error is discarded (line 1099 ignores the return
value). -/
def concatLoop1 (c : align) : List Nat → align → Eff align
  | [], a => Eff.ok a
  | i :: rest, a =>
    if (lookupName c.seqmap ((a.store.getD i emptySeq).name)).isSome then
      concatLoop1 c rest a
    else
      match goRepeat GAP c.length with
      | Eff.ok gaps =>
        match appendToSequence a ((a.store.getD i emptySeq).name) gaps with
        | Eff.ok a' => concatLoop1 c rest a'
        | Eff.fail _ a' => concatLoop1 c rest a'
        | _ => Eff.crash
      | _ => Eff.crash

/-- The second loop of `Concat` (align.go lines 1105-1114): every sequence
of `c` absent from `a` is first added as a full-gap row of `a`'s width (the
`AddSequence` error is discarded, line 1110), then the `c` sequence is
appended to the row of that name; `err` is overwritten with each
`appendToSequence` result, so only the last one survives. -/
def concatLoop2 (c : align) : List Nat → align → Option String → Eff (align × Option String)
  | [], a, err => Eff.ok (a, err)
  | j :: rest, a, _ =>
    (fun (a1 : Eff align) =>
      match a1 with
      | Eff.ok a1 =>
        (match appendToSequence a1 ((c.store.getD j emptySeq).name)
            ((c.store.getD j emptySeq).sequence) with
         | Eff.ok a2 => concatLoop2 c rest a2 none
         | Eff.fail m a2 => concatLoop2 c rest a2 (some m)
         | _ => Eff.crash)
      | _ => Eff.crash)
    (if (lookupName a.seqmap ((c.store.getD j emptySeq).name)).isSome then Eff.ok a
     else
       match goRepeat GAP a.length with
       | Eff.ok gaps =>
         (match AddSequenceChar a ((c.store.getD j emptySeq).name) gaps
             ((c.store.getD j emptySeq).comment) with
          | Eff.ok a1 => Eff.ok a1
          | Eff.fail _ a1 => Eff.ok a1
          | _ => Eff.crash)
       | _ => Eff.crash)

/-- The final consistency scan of `Concat` (align.go lines 1119-1128):
record the first sequence's length, flag an error if any later sequence
differs; the recorded length (or -1 with no sequences) becomes the new
alignment length in either case. -/
def concatScan (rs : List seq) : Int × Option String :=
  rs.foldl (fun st s =>
    if st.1 = -1 then ((s.sequence.length : Int), st.2)
    else if st.1 ≠ (s.sequence.length : Int) then
      (st.1, some "Sequences of the new alignment do not have the same length...")
    else st) (-1, none)

/-- `Concat` (align.go lines 1090-1132): reject a different alphabet, pad
`a`-only rows with gaps of `c`'s width, add `c`-only rows as gap rows of
`a`'s width and append every `c` row to its namesake, then rescan all
lengths, install the first row's length, and return the scan error if
any. -/
def Concat (a c : align) : Eff align :=
  if a.alphabet ≠ c.alphabet then Eff.fail "Alignments do not have the same alphabet" a
  else
    match concatLoop1 c a.seqs a with
    | Eff.ok a1 =>
      (match concatLoop2 c c.seqs a1 none with
       | Eff.ok (a2, some m) => Eff.fail m a2
       | Eff.ok (a2, none) =>
         (match (concatScan (rows a2)).2 with
          | some m => Eff.fail m { a2 with length := (concatScan (rows a2)).1 }
          | none => Eff.ok { a2 with length := (concatScan (rows a2)).1 })
       | _ => Eff.crash)
    | _ => Eff.crash

end Goalign

namespace Goalign

theorem length_foldl_append (ks : List String) (init : String) :
    (ks.foldl (fun acc k => acc ++ k) init).length
      = init.length + (ks.map String.length).sum := by
  induction ks generalizing init with
  | nil => simp
  | cons k ks ih =>
    simp only [List.foldl_cons, List.map_cons, List.sum_cons]
    rw [ih]
    simp [String.length_append]
    omega

theorem fallbackName_not_mem (ks : List String) (name : String) :
    fallbackName ks name ∉ ks := by
  intro hmem
  have hlen : (fallbackName ks name).length
      = (name ++ "_").length + (ks.map String.length).sum :=
    length_foldl_append ks (name ++ "_")
  have hk : (fallbackName ks name).length ∈ ks.map String.length :=
    List.mem_map_of_mem String.length hmem
  have hsingle : (fallbackName ks name).length ≤ (ks.map String.length).sum :=
    List.single_le_sum (fun x _ => Nat.zero_le x) _ hk
  have hone : (1 : Nat) ≤ ("_" : String).length := by decide
  rw [String.length_append] at hlen
  omega

theorem freshName_not_mem (ks : List String) (name : String) :
    freshName ks name ∉ ks := by
  cases hf : (name :: (List.range (ks.length + 1)).map
      (fun i => renamed name (i + 1))).find? (fun c => decide (c ∉ ks)) with
  | none =>
    simp only [freshName]
    rw [hf]
    exact fallbackName_not_mem ks name
  | some c =>
    have hc := List.find?_some (p := fun c => decide (c ∉ ks)) hf
    have hc' : c ∉ ks := of_decide_eq_true hc
    simp only [freshName]
    rw [hf]
    exact hc'

theorem getD_set_self {α : Type} (l : List α) (i : Nat) (x d : α) (h : i < l.length) :
    (l.set i x).getD i d = x := by
  simp [List.getD_eq_getElem?_getD, List.getElem?_set, h]

theorem getD_set_ne {α : Type} (l : List α) {i j : Nat} (x : α) (d : α) (h : i ≠ j) :
    (l.set i x).getD j d = l.getD j d := by
  simp [List.getD_eq_getElem?_getD, List.getElem?_set, h]

theorem updStore_length (st : List seq) (ps : List (Nat × Nat)) (f : Nat → seq → seq) :
    (updStore st ps f).length = st.length := by
  induction ps generalizing st with
  | nil => rfl
  | cons p rest ih =>
    simp only [updStore, List.foldl_cons] at *
    rw [ih]
    exact List.length_set st p.2 _

theorem updStore_getD_not_mem (st : List seq) (ps : List (Nat × Nat)) (f : Nat → seq → seq)
    {j : Nat} (hj : j ∉ ps.map Prod.snd) :
    (updStore st ps f).getD j emptySeq = st.getD j emptySeq := by
  induction ps generalizing st with
  | nil => rfl
  | cons p rest ih =>
    simp only [List.map_cons, List.mem_cons, not_or] at hj
    simp only [updStore, List.foldl_cons] at *
    rw [ih _ hj.2, getD_set_ne st _ _ (fun h => hj.1 h.symm)]

theorem updStore_getD_mem (st : List seq) (ps : List (Nat × Nat)) (f : Nat → seq → seq)
    (hnd : (ps.map Prod.snd).Nodup) (hbd : ∀ p ∈ ps, p.2 < st.length)
    {k i : Nat} (hmem : (k, i) ∈ ps) :
    (updStore st ps f).getD i emptySeq = f k (st.getD i emptySeq) := by
  induction ps generalizing st with
  | nil => cases hmem
  | cons p rest ih =>
    simp only [List.map_cons, List.nodup_cons] at hnd
    rcases List.mem_cons.mp hmem with heq | htail
    · subst heq
      simp only [updStore, List.foldl_cons]
      have hsnd : i ∉ rest.map Prod.snd := by simpa using hnd.1
      have := updStore_getD_not_mem (st.set i (f k (st.getD i emptySeq))) rest f hsnd
      simp only [updStore] at this
      rw [this, getD_set_self _ _ _ _ (hbd _ (List.mem_cons_self _ _))]
    · simp only [updStore, List.foldl_cons]
      have hne : p.2 ≠ i := by
        intro h
        exact hnd.1 (h ▸ List.mem_map_of_mem Prod.snd htail)
      have hbd' : ∀ q ∈ rest, q.2 < (st.set p.2 (f p.1 (st.getD p.2 emptySeq))).length := by
        intro q hq
        rw [List.length_set]
        exact hbd q (List.mem_cons_of_mem _ hq)
      have := ih (st.set p.2 (f p.1 (st.getD p.2 emptySeq))) hnd.2 hbd' htail
      simp only [updStore] at this
      rw [this, getD_set_ne _ _ _ hne]

theorem length_foldl_eraseIdx {α : Type} (l : List Nat) (row : List α)
    (hsorted : l.Pairwise (· > ·)) (hbd : ∀ p ∈ l, p < row.length) :
    (l.foldl (fun sq p => sq.eraseIdx p) row).length = row.length - l.length := by
  induction l generalizing row with
  | nil => rfl
  | cons p rest ih =>
    simp only [List.foldl_cons]
    have hp : p < row.length := hbd p (List.mem_cons_self _ _)
    have hlen : (row.eraseIdx p).length = row.length - 1 := by
      rw [List.length_eraseIdx]
      simp [hp]
    have hbd' : ∀ q ∈ rest, q < (row.eraseIdx p).length := by
      intro q hq
      rw [hlen]
      have hqp : p > q := (List.pairwise_cons.mp hsorted).1 q hq
      omega
    rw [ih (row.eraseIdx p) (List.pairwise_cons.mp hsorted).2 hbd', hlen]
    simp only [List.length_cons]
    omega

theorem endsFilter_sublist (ends : Bool) (fc : Int) (l : List Nat) (lc : Int) :
    (endsFilter ends fc l lc).Sublist l := by
  induction l generalizing lc with
  | nil => simp [endsFilter]
  | cons p rest ih =>
    simp only [endsFilter]
    split
    · split
      · exact (ih _).cons₂ p
      · exact (ih _).cons p
    · split
      · exact (ih _).cons₂ p
      · exact (ih _).cons p

theorem removedSites_pairwise (a : align) (c : ℚ) (ends : Bool) :
    (removedSites a c ends).Pairwise (· > ·) := by
  have h1 : (toremoveSites a c).Pairwise (· < ·) :=
    List.Pairwise.sublist (List.filter_sublist _) (List.pairwise_lt_range _)
  have h2 : (toremoveSites a c).reverse.Pairwise (· > ·) := by
    rw [List.pairwise_reverse]
    exact h1
  exact List.Pairwise.sublist (endsFilter_sublist _ _ _ _) h2

theorem removedSites_lt (a : align) (c : ℚ) (ends : Bool) :
    ∀ p ∈ removedSites a c ends, p < a.length.toNat := by
  intro p hp
  have h1 : p ∈ (toremoveSites a c).reverse :=
    (endsFilter_sublist _ _ _ _).subset hp
  rw [List.mem_reverse] at h1
  have h2 : p ∈ List.range a.length.toNat := (List.filter_sublist _).subset h1
  exact List.mem_range.mp h2

theorem removedSites_length_le (a : align) (c : ℚ) (ends : Bool) :
    (removedSites a c ends).length ≤ a.length.toNat := by
  calc (removedSites a c ends).length
      ≤ (toremoveSites a c).reverse.length := (endsFilter_sublist _ _ _ _).length_le
    _ = (toremoveSites a c).length := List.length_reverse _
    _ ≤ (List.range a.length.toNat).length := (List.filter_sublist _).length_le
    _ = a.length.toNat := List.length_range _

end Goalign

namespace Goalign

theorem exists_enum_of_mem {l : List Nat} {i : Nat} (h : i ∈ l) :
    ∃ k, (k, i) ∈ l.enum := by
  have hm : i ∈ l.enum.map Prod.snd := by
    rw [List.enum_map_snd]
    exact h
  rcases List.mem_map.mp hm with ⟨p, hp, hpi⟩
  refine ⟨p.1, ?_⟩
  rw [← hpi, Prod.mk.eta]
  exact hp

theorem updateRows_getD (a : align) (f : Nat → seq → seq) (hV : Valid a)
    {k i : Nat} (hki : (k, i) ∈ a.seqs.enum) :
    (updateRows a f).store.getD i emptySeq = f k (a.store.getD i emptySeq) := by
  apply updStore_getD_mem
  · rw [List.enum_map_snd]
    exact hV.1
  · intro p hp
    apply hV.2
    have : p.2 ∈ a.seqs.enum.map Prod.snd := List.mem_map_of_mem Prod.snd hp
    rwa [List.enum_map_snd] at this
  · exact hki

theorem updateRows_store_length (a : align) (f : Nat → seq → seq) :
    (updateRows a f).store.length = a.store.length :=
  updStore_length a.store a.seqs.enum f

theorem Valid_updateRows (a : align) (f : Nat → seq → seq) (hV : Valid a) :
    Valid (updateRows a f) := by
  refine ⟨hV.1, ?_⟩
  intro i hi
  rw [updateRows_store_length]
  exact hV.2 i hi

theorem trimSeq_sequence (n : Nat) (fs : Bool) (s : seq) :
    (trimSeq n fs s).sequence =
      if fs then s.sequence.drop n else s.sequence.take (s.sequence.length - n) := by
  cases fs <;> simp [trimSeq]

/-- Claim C8: `TrimSequences(trimsize, fromStart)` returns an error, leaving
the alignment unchanged, exactly when `trimsize < 0` or `trimsize ≥ length`;
under `0 ≤ trimsize < length` it succeeds, removes exactly the first
(`fromStart = true`) or last (`fromStart = false`) `trimsize` symbols from
every sequence, and decreases the alignment length by exactly `trimsize`. -/
theorem C8_TrimSequences (a : align) (t : Int) (fs : Bool) (hV : Valid a) (hI : Inv a) :
    ((t < 0 ∨ t ≥ a.length) ↔ ∃ m, TrimSequences a t fs = Eff.fail m a) ∧
    (0 ≤ t → t < a.length →
      ∃ a', TrimSequences a t fs = Eff.ok a' ∧
        a'.length = a.length - t ∧
        a'.seqs = a.seqs ∧ a'.seqmap = a.seqmap ∧
        ∀ i ∈ a.seqs,
          (a'.store.getD i emptySeq).sequence =
            (if fs then (a.store.getD i emptySeq).sequence.drop t.toNat
             else (a.store.getD i emptySeq).sequence.take
               ((a.store.getD i emptySeq).sequence.length - t.toNat)) ∧
          ((a'.store.getD i emptySeq).sequence.length : Int) = a.length - t) := by
  constructor
  · constructor
    · intro h
      by_cases h0 : t < 0
      · exact ⟨"Trim size must not be < 0", by simp [TrimSequences, h0]⟩
      · have hge : t ≥ a.length := h.resolve_left h0
        exact ⟨"Trim size must be < alignment length (" ++ toString a.length ++ ")",
          by simp [TrimSequences, h0, hge]⟩
    · rintro ⟨m, hm⟩
      by_contra hcon
      push_neg at hcon
      simp [TrimSequences, hcon.1, hcon.2, not_lt_of_le hcon.1, not_le_of_lt hcon.2] at hm
  · intro h0 hlt
    have heq : TrimSequences a t fs =
        Eff.ok { updateRows a (fun _ s => trimSeq t.toNat fs s) with length := a.length - t } := by
      simp [TrimSequences, not_lt_of_le h0, not_le_of_lt hlt]
    refine ⟨_, heq, rfl, rfl, rfl, ?_⟩
    intro i hi
    rcases exists_enum_of_mem hi with ⟨k, hk⟩
    have hrow := updateRows_getD a (fun _ s => trimSeq t.toNat fs s) hV hk
    simp only [updateRows] at hrow ⊢
    have hlen : ((a.store.getD i emptySeq).sequence.length : Int) = a.length := by
      rcases hI with ⟨_, hnil⟩ | ⟨_, hall⟩
      · rw [hnil] at hi
        cases hi
      · exact hall i hi
    constructor
    · simp only [hrow]
      exact trimSeq_sequence t.toNat fs _
    · simp only [hrow, trimSeq_sequence]
      cases fs <;> simp only [if_true, if_false, Bool.false_eq_true, if_neg, List.length_drop,
        List.length_take] <;> omega

theorem C8_TrimSequences_witness :
    (((1 : Int) < 0 ∨ (1 : Int) ≥ exTrim.length) ↔
      ∃ m, TrimSequences exTrim 1 true = Eff.fail m exTrim) ∧
    ((0 : Int) ≤ 1 → (1 : Int) < exTrim.length →
      ∃ a', TrimSequences exTrim 1 true = Eff.ok a' ∧
        a'.length = exTrim.length - 1 ∧
        a'.seqs = exTrim.seqs ∧ a'.seqmap = exTrim.seqmap ∧
        ∀ i ∈ exTrim.seqs,
          (a'.store.getD i emptySeq).sequence =
            (if true then (exTrim.store.getD i emptySeq).sequence.drop (1 : Int).toNat
             else (exTrim.store.getD i emptySeq).sequence.take
               ((exTrim.store.getD i emptySeq).sequence.length - (1 : Int).toNat)) ∧
          ((a'.store.getD i emptySeq).sequence.length : Int) = exTrim.length - 1) :=
  C8_TrimSequences exTrim 1 true (by decide) (by decide)

end Goalign

namespace Goalign

theorem getD_append_left_of_lt {α : Type} (l : List α) (x d : α) {i : Nat}
    (h : i < l.length) : (l ++ [x]).getD i d = l.getD i d := by
  simp [List.getD_eq_getElem?_getD, List.getElem?_append_left h]

theorem getD_append_self {α : Type} (l : List α) (x d : α) :
    (l ++ [x]).getD l.length d = x := by
  simp [List.getD_eq_getElem?_getD, List.getElem?_concat_length]

theorem AddSequenceChar_fail_state (a : align) (n : String) (sq : List Char)
    (cm : String) (m : String) (a' : align)
    (h : AddSequenceChar a n sq cm = Eff.fail m a') : a' = a := by
  unfold AddSequenceChar at h
  split at h
  · cases h
    rfl
  · cases h

theorem AddSequenceChar_ok_state (a : align) (n : String) (sq : List Char)
    (cm : String) (a' : align)
    (h : AddSequenceChar a n sq cm = Eff.ok a') :
    a' = { a with
      length := (sq.length : Int)
      store := a.store ++ [⟨freshName (keys a.seqmap) n, sq, cm⟩]
      seqmap := a.seqmap ++ [(freshName (keys a.seqmap) n, a.store.length)]
      seqs := a.seqs ++ [a.store.length] } := by
  unfold AddSequenceChar at h
  split at h
  · cases h
  · cases h
    rfl

theorem Valid_AddSequenceChar_ok (a : align) (n : String) (sq : List Char)
    (cm : String) (a' : align) (hV : Valid a)
    (h : AddSequenceChar a n sq cm = Eff.ok a') : Valid a' := by
  rw [AddSequenceChar_ok_state a n sq cm a' h]
  constructor
  · simp only [List.nodup_append, List.nodup_cons, List.not_mem_nil, not_false_iff,
      List.nodup_nil, and_true, true_and]
    constructor
    · exact hV.1
    · intro i hi h1
      simp only [List.mem_singleton] at h1
      exact absurd (h1 ▸ hV.2 i hi) (lt_irrefl _)
  · intro i hi
    simp only [List.length_append, List.length_singleton]
    rcases List.mem_append.mp hi with h1 | h1
    · exact Nat.lt_succ_of_lt (hV.2 i h1)
    · simp only [List.mem_singleton] at h1
      omega

theorem SyncMap_appendSeq (a : align) (nm : String) (sq : List Char) (cm : String)
    (L : Int) (hV : Valid a) (hS : SyncMap a)
    (hfresh : nm ∉ a.seqs.map (fun i => (a.store.getD i emptySeq).name)) :
    SyncMap { a with
      length := L
      store := a.store ++ [⟨nm, sq, cm⟩]
      seqmap := a.seqmap ++ [(nm, a.store.length)]
      seqs := a.seqs ++ [a.store.length] } := by
  have hold : ∀ i ∈ a.seqs,
      (a.store ++ [(⟨nm, sq, cm⟩ : seq)]).getD i emptySeq = a.store.getD i emptySeq :=
    fun i hi => getD_append_left_of_lt _ _ _ (hV.2 i hi)
  have hnewdef : (a.store ++ [(⟨nm, sq, cm⟩ : seq)]).getD a.store.length emptySeq
      = ⟨nm, sq, cm⟩ := getD_append_self _ _ _
  have hmapeq : a.seqs.map
        (fun i => (((a.store ++ [(⟨nm, sq, cm⟩ : seq)]).getD i emptySeq).name, i))
      = a.seqs.map (fun i => ((a.store.getD i emptySeq).name, i)) :=
    List.map_congr_left (fun i hi => by rw [hold i hi])
  have hnameseq : a.seqs.map
        (fun i => ((a.store ++ [(⟨nm, sq, cm⟩ : seq)]).getD i emptySeq).name)
      = a.seqs.map (fun i => (a.store.getD i emptySeq).name) :=
    List.map_congr_left (fun i hi => by rw [hold i hi])
  constructor
  · show a.seqmap ++ [(nm, a.store.length)] = _
    simp only [List.map_append, List.map_cons, List.map_nil, hnewdef, hmapeq]
    rw [hS.1]
  · show ((a.seqs ++ [a.store.length]).map _).Nodup
    simp only [List.map_append, List.map_cons, List.map_nil, hnewdef, hnameseq]
    rw [List.nodup_append]
    refine ⟨hS.2, List.nodup_singleton _, ?_⟩
    intro x hx hx2
    simp only [List.mem_singleton] at hx2
    subst hx2
    exact hfresh hx

theorem SyncMap_AddSequenceChar_ok (a : align) (n : String) (sq : List Char)
    (cm : String) (a' : align) (hV : Valid a) (hS : SyncMap a)
    (h : AddSequenceChar a n sq cm = Eff.ok a') : SyncMap a' := by
  have hkeys : keys a.seqmap = a.seqs.map (fun i => (a.store.getD i emptySeq).name) := by
    rw [hS.1]
    simp [keys]
  have hfresh : freshName (keys a.seqmap) n
      ∉ a.seqs.map (fun i => (a.store.getD i emptySeq).name) := by
    rw [← hkeys]
    exact freshName_not_mem (keys a.seqmap) n
  rw [AddSequenceChar_ok_state a n sq cm a' h]
  exact SyncMap_appendSeq a _ sq cm _ hV hS hfresh

theorem foldl_eraseIdx_sublist {α : Type} (l : List Nat) (xs : List α) :
    (l.foldl (fun s p => s.eraseIdx p) xs).Sublist xs := by
  induction l generalizing xs with
  | nil => exact List.Sublist.refl xs
  | cons p rest ih =>
    simp only [List.foldl_cons]
    exact (ih (xs.eraseIdx p)).trans (List.eraseIdx_sublist xs p)

/-- Claim C3 counterexample: after `RemoveGapSeqs` deletes the all-gap
sequence `B` from the insertion-order list, its name is still a key of the
name map, so the map and the list no longer reference the same set. -/
theorem C3_counterexample :
    "B" ∈ keys (RemoveGapSeqs exGapSeqs (1/2)).seqmap ∧
    "B" ∉ (rows (RemoveGapSeqs exGapSeqs (1/2))).map seq.name := by
  with_unfolding_all decide

/-- Claim C3 amended: `AddSequenceChar` keeps the name map and the
insertion-order list referencing the same set (and fails without mutating),
but `RemoveGapSeqs` removes sequences from the insertion-order list only:
the name map and the store are left untouched, so a removed sequence is
still referenced by the name map. -/
theorem C3_map_list_sync :
    (∀ (a : align) (n : String) (sq : List Char) (cm : String),
      Valid a → SyncMap a →
        (∀ a', AddSequenceChar a n sq cm = Eff.ok a' → Valid a' ∧ SyncMap a') ∧
        (∀ m a', AddSequenceChar a n sq cm = Eff.fail m a' → a' = a)) ∧
    (∀ (a : align) (cutoff : ℚ),
      (RemoveGapSeqs a cutoff).seqmap = a.seqmap ∧
      (RemoveGapSeqs a cutoff).store = a.store ∧
      (RemoveGapSeqs a cutoff).seqs.Sublist a.seqs) := by
  constructor
  · intro a n sq cm hV hS
    constructor
    · intro a' h
      exact ⟨Valid_AddSequenceChar_ok a n sq cm a' hV h,
        SyncMap_AddSequenceChar_ok a n sq cm a' hV hS h⟩
    · intro m a' h
      exact AddSequenceChar_fail_state a n sq cm m a' h
  · intro a cutoff
    refine ⟨rfl, rfl, ?_⟩
    exact foldl_eraseIdx_sublist _ _

theorem C3_map_list_sync_witness :
    (∀ a', AddSequenceChar exTrim "s3" ['G', 'G'] "" = Eff.ok a' → Valid a' ∧ SyncMap a') ∧
    (∀ m a', AddSequenceChar exTrim "s3" ['G', 'G'] "" = Eff.fail m a' → a' = exTrim) :=
  C3_map_list_sync.1 exTrim "s3" ['G', 'G'] "" (by decide) (by decide)

/-- Claim C7: on an alignment whose alphabet is neither nucleotide nor
amino-acid, `Mask` returns the wrong-alphabet error but still mutates the
alignment, overwriting the masked range with `'.'` — the missing early
return contradicts the specified abort-unchanged failure policy honoured by
the other two guards. -/
theorem C7_Mask_wrong_alphabet_mutates :
    Mask exMaskU 0 1 =
      Eff.fail "Mask: Cannot mask alignment, wrong alphabet"
        { exMaskU with store := [⟨"s1", ['.', 'A'], ""⟩] } ∧
    ({ exMaskU with store := [⟨"s1", ['.', 'A'], ""⟩] } : align) ≠ exMaskU := by
  decide

end Goalign

namespace Goalign

theorem filterMap_id_map_some {α β : Type} (l : List α) (f : α → Option β) (g : α → β)
    (h : ∀ x ∈ l, f x = some (g x)) : (l.map f).filterMap id = l.map g := by
  induction l with
  | nil => rfl
  | cons x xs ih =>
    simp only [List.map_cons, List.filterMap_cons, h x (List.mem_cons_self _ _), id_eq]
    rw [ih (fun y hy => h y (List.mem_cons_of_mem _ hy))]

theorem rows_length_int (a : align) (hI : Inv a) {s : seq} (hs : s ∈ rows a) :
    (s.sequence.length : Int) = a.length := by
  rcases List.mem_map.mp hs with ⟨i, hi, hsi⟩
  rcases hI with ⟨_, hnil⟩ | ⟨_, hall⟩
  · rw [hnil] at hi
    cases hi
  · rw [← hsi]
    exact hall i hi

/-- Claim C5 counterexample: on a one-sequence alignment of width 1, the
claim requires `Entropy(1, _)` to return an error (`site = length`), but the
Go bound check `site > a.Length()` accepts it and the read
`a.seqs[0].sequence[1]` is out of range: a runtime panic, not an error. -/
theorem C5_counterexample : Entropy exEnt 1 false = Eff.crash := by
  rfl

/-- Claim C5 amended: `Entropy(site, removegaps)` returns an error if and
only if `site < 0` or `site > length` (not `≥`: `site = length` passes the
check and, as soon as the alignment has a sequence, panics on an
out-of-range read); for any in-range site where zero eligible symbols
remain after excluding `Other`/`Match` (and `Gap` when `removegaps`), it
returns the NaN sentinel without an error. -/
theorem C5_Entropy (a : align) (site : Int) (rg : Bool) (hI : Inv a) :
    ((site < 0 ∨ site > a.length) ↔ ∃ m v, Entropy a site rg = Eff.fail m v) ∧
    (site = a.length → 0 ≤ a.length → 0 < NbSequences a →
      Entropy a site rg = Eff.crash) ∧
    (0 ≤ site → site < a.length →
      (∀ s ∈ rows a, eligible rg (s.sequence.getD site.toNat ' ') = false) →
      Entropy a site rg = Eff.ok none) := by
  refine ⟨⟨?_, ?_⟩, ?_, ?_⟩
  · intro h
    exact ⟨"Site position is outside alignment", some 1, by simp [Entropy, h]⟩
  · rintro ⟨m, v, hm⟩
    by_contra hcon
    unfold Entropy at hm
    rw [if_neg hcon] at hm
    split at hm
    · cases hm
    · unfold entropyVal at hm
      split at hm
      · cases hm
      · cases hm
  · intro hsite hlen hnb
    subst hsite
    have hcond : ¬(a.length < 0 ∨ a.length > a.length) := by omega
    unfold Entropy
    rw [if_neg hcond]
    have hpos : 0 < (rows a).length := by
      simpa [rows] using hnb
    rcases List.exists_mem_of_ne_nil (rows a) (List.length_pos.mp hpos) with ⟨s, hs⟩
    have hrl : (s.sequence.length : Int) = a.length := rows_length_int a hI hs
    have hnone : s.sequence[a.length.toNat]? = none := by
      apply List.getElem?_len_le
      omega
    have hany : ((rows a).map (fun s => s.sequence[a.length.toNat]?)).any
        (fun r => r.isNone) = true := by
      rw [List.any_eq_true]
      exact ⟨none, by
        rcases List.mem_map.mp (List.mem_map_of_mem (fun s => s.sequence[a.length.toNat]?) hs)
          with ⟨t, ht, hts⟩
        rw [← hnone]
        exact List.mem_map_of_mem _ hs, rfl⟩
    rw [if_pos hany]
  · intro h0 hlt hinelig
    have hcond : ¬(site < 0 ∨ site > a.length) := by omega
    unfold Entropy
    rw [if_neg hcond]
    have hreads : ∀ s ∈ rows a,
        s.sequence[site.toNat]? = some (s.sequence.getD site.toNat ' ') := by
      intro s hs
      have hrl : (s.sequence.length : Int) = a.length := rows_length_int a hI hs
      have hb : site.toNat < s.sequence.length := by omega
      rw [List.getElem?_eq_getElem hb, List.getD_eq_getElem?_getD,
        List.getElem?_eq_getElem hb]
      rfl
    have hnocrash : ((rows a).map (fun s => s.sequence[site.toNat]?)).any
        (fun r => r.isNone) = false := by
      rw [List.any_eq_false]
      intro r hr
      rcases List.mem_map.mp hr with ⟨s, hs, hsr⟩
      rw [← hsr, hreads s hs]
      simp
    rw [hnocrash]
    simp only [Bool.false_eq_true, if_false]
    have hfm : (((rows a).map (fun s => s.sequence[site.toNat]?)).filterMap id)
        = (rows a).map (fun s => s.sequence.getD site.toNat ' ') :=
      filterMap_id_map_some (rows a) _ _ hreads
    rw [hfm]
    have hsel : ((rows a).map (fun s => s.sequence.getD site.toNat ' ')).filter
        (eligible rg) = [] := by
      rw [List.filter_eq_nil]
      intro c hc
      rcases List.mem_map.mp hc with ⟨s, hs, hsc⟩
      rw [← hsc]
      exact fun hx => absurd (hinelig s hs) (by rw [hx]; simp)
    rw [hsel]
    rfl

theorem C5_Entropy_witness :
    ((((1 : Int) < 0 ∨ (1 : Int) > exAllGap.length) ↔
      ∃ m v, Entropy exAllGap 1 true = Eff.fail m v) ∧
    ((1 : Int) = exAllGap.length → 0 ≤ exAllGap.length → 0 < NbSequences exAllGap →
      Entropy exAllGap 1 true = Eff.crash) ∧
    ((0 : Int) ≤ 1 → (1 : Int) < exAllGap.length →
      (∀ s ∈ rows exAllGap, eligible true (s.sequence.getD (1 : Int).toNat ' ') = false) →
      Entropy exAllGap 1 true = Eff.ok none)) :=
  C5_Entropy exAllGap 1 true (by decide)

/-- Claim C10: on any alignment all of whose columns consist entirely of
gap, match and `*` symbols — including the empty alignment — both tallies
of `AvgAllelesPerSite` stay zero and the result is the `0/0` NaN sentinel,
not a failure and not zero. -/
theorem C10_AvgAllelesPerSite (a : align)
    (hall : ∀ site < a.length.toNat, ∀ s ∈ rows a,
      s.sequence.getD site ' ' = GAP ∨ s.sequence.getD site ' ' = POINT ∨
        s.sequence.getD site ' ' = OTHER) :
    AvgAllelesPerSite a = GoFloat.nan := by
  have hstat : ∀ site < a.length.toNat, siteStat a site = (0, true) := by
    intro site hsite
    have hnonspecial : colNonspecial a site = [] := by
      rw [colNonspecial, List.filter_eq_nil]
      intro c hc
      rcases List.mem_map.mp hc with ⟨s, hs, hsc⟩
      have h3 := hall site hsite s hs
      rw [← hsc]
      simp only [decide_eq_true_eq, not_and_or, not_not]
      rcases h3 with h3 | h3 | h3
      · exact Or.inl h3
      · exact Or.inr (Or.inl h3)
      · exact Or.inr (Or.inr h3)
    rw [siteStat, hnonspecial]
    rfl
  unfold AvgAllelesPerSite
  have hsum : (((List.range a.length.toNat).map (siteStat a)).map Prod.fst).sum = 0 := by
    apply List.sum_eq_zero
    intro x hx
    rcases List.mem_map.mp hx with ⟨p, hp, hpx⟩
    rcases List.mem_map.mp hp with ⟨site, hsite, hps⟩
    rw [← hpx, ← hps, hstat site (List.mem_range.mp hsite)]
  have hfilter : ((List.range a.length.toNat).map (siteStat a)).filter
      (fun p => !p.2) = [] := by
    rw [List.filter_eq_nil]
    intro p hp
    rcases List.mem_map.mp hp with ⟨site, hsite, hps⟩
    rw [← hps, hstat site (List.mem_range.mp hsite)]
    simp
  rw [hsum, hfilter]
  rfl

theorem C10_AvgAllelesPerSite_witness : AvgAllelesPerSite exAllGap = GoFloat.nan :=
  C10_AvgAllelesPerSite exAllGap (by decide)

end Goalign

namespace Goalign

/-- Claim C6: the stop position reported by `Stops` for one sequence is
claimed to depend only on that sequence and the reference row.  In the code,
`phase` and `started` are declared before the per-sequence loop (align.go
lines 837-838, unlike `Frameshifts`, which resets them per sequence), so
their values leak from one sequence to the next: with
`startingGapsAsIncomplete = true`, the row `y = -TAAAAAA` is reported with
its first stop at ungapped position 3 when the ungapped row `x` precedes it
(the leaked `started = true` flag suppresses the leading-incomplete
handling, so the frame-shifted codon `TAA` is read), and with no stop at
all when `y` is the only non-reference row. -/
theorem C6_Stops_state_leak :
    Stops exStopsA true 0 = Eff.ok [0, -1, 3] ∧
    Stops exStopsB true 0 = Eff.ok [0, -1] := by
  constructor <;> decide

end Goalign

namespace Goalign

/-- Claim C2 counterexample: `NewAlign` with the unexpected alphabet tag 5
terminates the process through `io.ExitWithMessage` instead of reporting a
returned failure. -/
theorem C2_counterexample : NewAlign 5 = Eff.exit "Unexpected sequence alphabet type" := by
  decide

theorem goInt_le_self (q : ℚ) (h : 0 ≤ q) : ((goInt q : Int) : ℚ) ≤ q := by
  rw [goInt, Int.tdiv_eq_ediv (Rat.num_nonneg.mpr h) (by positivity), ← Rat.floor_def]
  exact Int.floor_le q

/-- Claim C2 amended: `NewAlign` with an unexpected alphabet and
`ShuffleSites` with `rate` or `roguerate` outside `[0,1]` terminate the
process through `io.ExitWithMessage`; `ShuffleSites`' remaining exit guard
("Too many sites to shuffle") is unreachable under exact arithmetic — with
in-range rates, an empty alignment (`Length() == -1`) panics in
`rand.Perm` before that guard, and with a nonnegative length the two
truncated quotas never exceed the length, so the checks succeed; the other
modelled fallible operations (`AddSequenceChar`, `TrimSequences`, `Mask`,
`Entropy`, `Stops`) never terminate through `io.ExitWithMessage` — their
failures are explicitly returned results. -/
theorem C2_no_exit :
    (∀ (a : align) (rate roguerate : ℚ), rate < 0 ∨ rate > 1 →
      ShuffleSitesChecks a rate roguerate = Eff.exit "Shuffle site rate must be >=0 and <=1") ∧
    (∀ (a : align) (rate roguerate : ℚ), ¬(rate < 0 ∨ rate > 1) →
      roguerate < 0 ∨ roguerate > 1 →
      ShuffleSitesChecks a rate roguerate = Eff.exit "Shuffle rogue rate must be >=0 and <=1") ∧
    (∀ (a : align) (rate roguerate : ℚ), ¬(rate < 0 ∨ rate > 1) →
      ¬(roguerate < 0 ∨ roguerate > 1) → a.length < 0 →
      ShuffleSitesChecks a rate roguerate = Eff.crash) ∧
    (∀ (a : align) (rate roguerate : ℚ), ¬(rate < 0 ∨ rate > 1) →
      ¬(roguerate < 0 ∨ roguerate > 1) → 0 ≤ a.length →
      ShuffleSitesChecks a rate roguerate = Eff.ok ()) ∧
    (∀ alphabet : Int, alphabet ≠ AMINOACIDS → alphabet ≠ NUCLEOTIDS → alphabet ≠ UNKNOWN →
      alphabet ≠ BOTH → NewAlign alphabet = Eff.exit "Unexpected sequence alphabet type") ∧
    (∀ (a : align) (t : Int) (fs : Bool), (TrimSequences a t fs).isExit = false) ∧
    (∀ (a : align) (s l : Int), (Mask a s l).isExit = false) ∧
    (∀ (a : align) (n : String) (sq : List Char) (cm : String),
      (AddSequenceChar a n sq cm).isExit = false) ∧
    (∀ (a : align) (site : Int) (rg : Bool), (Entropy a site rg).isExit = false) ∧
    (∀ (a : align) (sg : Bool) (gc : Int), (Stops a sg gc).isExit = false) := by
  refine ⟨?_, ?_, ?_, ?_, ?_, ?_, ?_, ?_, ?_, ?_⟩
  · intro a rate roguerate h
    simp [ShuffleSitesChecks, h]
  · intro a rate roguerate h1 h2
    rw [ShuffleSitesChecks, if_neg h1, if_pos h2]
  · intro a rate roguerate h1 h2 h3
    rw [ShuffleSitesChecks, if_neg h1, if_neg h2, if_pos h3]
  · intro a rate roguerate h1 h2 hL
    have h1' := h1
    push_neg at h1'
    have hLq : (0 : ℚ) ≤ (a.length : ℚ) := by exact_mod_cast hL
    have hx : (0 : ℚ) ≤ rate * (1 - rate) * (a.length : ℚ) :=
      mul_nonneg (mul_nonneg h1'.1 (by linarith [h1'.2])) hLq
    have hy : (0 : ℚ) ≤ rate * (a.length : ℚ) := mul_nonneg h1'.1 hLq
    have hgx := goInt_le_self _ hx
    have hgy := goInt_le_self _ hy
    have key : (0 : ℚ) ≤ (a.length : ℚ) * (1 - rate) ^ 2 :=
      mul_nonneg hLq (sq_nonneg _)
    have hxy : rate * (1 - rate) * (a.length : ℚ) + rate * (a.length : ℚ)
        = (a.length : ℚ) - (a.length : ℚ) * (1 - rate) ^ 2 := by ring
    have hsum : ((goInt (rate * (1 - rate) * (a.length : ℚ)) : Int) : ℚ)
        + ((goInt (rate * (a.length : ℚ)) : Int) : ℚ) ≤ (a.length : ℚ) := by
      linarith [hgx, hgy, key, hxy]
    rw [ShuffleSitesChecks, if_neg h1, if_neg h2, if_neg (show ¬ a.length < 0 by omega),
      if_neg (show ¬ (goInt (rate * (1 - rate) * (a.length : ℚ))
          + goInt (rate * (a.length : ℚ)) > a.length) by
        rw [not_lt]
        exact_mod_cast hsum)]
  · intro alphabet h1 h2 h3 h4
    rw [NewAlign, if_neg (by simp [AMINOACIDS, NUCLEOTIDS, UNKNOWN] at *; omega),
      if_neg (by simpa [BOTH] using h4)]
  · intro a t fs
    rw [TrimSequences]
    split
    · rfl
    · split <;> rfl
  · intro a s l
    rw [Mask]
    split
    · rfl
    · split
      · rfl
      · by_cases hA : a.alphabet = AMINOACIDS
        · simp [hA, Eff.isExit, AMINOACIDS, NUCLEOTIDS]
        · by_cases hN : a.alphabet = NUCLEOTIDS
          · simp [hA, hN, Eff.isExit, AMINOACIDS, NUCLEOTIDS]
          · simp only [AMINOACIDS] at hA
            simp only [NUCLEOTIDS] at hN
            simp [hA, hN, Eff.isExit, AMINOACIDS, NUCLEOTIDS]
  · intro a n sq cm
    rw [AddSequenceChar]
    split <;> rfl
  · intro a site rg
    rw [Entropy]
    split
    · rfl
    · split
      · rfl
      · rw [entropyVal]
        split <;> rfl
  · intro a sg gc
    rw [Stops]
    split
    · rfl
    · split <;> rfl

theorem C2_no_exit_witness :
    ShuffleSitesChecks exEmpty 2 0 = Eff.exit "Shuffle site rate must be >=0 and <=1" ∧
    ShuffleSitesChecks exEmpty 0 2 = Eff.exit "Shuffle rogue rate must be >=0 and <=1" ∧
    ShuffleSitesChecks exEmpty 0 0 = Eff.crash ∧
    ShuffleSitesChecks exTrim 0 0 = Eff.ok () ∧
    NewAlign 7 = Eff.exit "Unexpected sequence alphabet type" ∧
    (TrimSequences exTrim 5 true).isExit = false :=
  ⟨C2_no_exit.1 exEmpty 2 0 (by norm_num),
   C2_no_exit.2.1 exEmpty 0 2 (by norm_num) (by norm_num),
   C2_no_exit.2.2.1 exEmpty 0 0 (by norm_num) (by norm_num) (by decide),
   C2_no_exit.2.2.2.1 exTrim 0 0 (by norm_num) (by norm_num) (by decide),
   C2_no_exit.2.2.2.2.1 7 (by decide) (by decide) (by decide) (by decide),
   C2_no_exit.2.2.2.2.2.1 exTrim 5 true⟩

end Goalign

namespace Goalign

theorem compressPats_perm (a : align) :
    (compressPats a).Perm (columns a).dedup :=
  List.mergeSort_perm (columns a).dedup lexLe

theorem mem_columns_of_mem_compressPats (a : align) {p : List Char}
    (hp : p ∈ compressPats a) : p ∈ columns a :=
  List.mem_dedup.mp ((compressPats_perm a).subset hp)

theorem sum_map_count_dedup (l : List (List Char)) :
    (l.dedup.map (fun x => l.count x)).sum = l.length := by
  have h : ∀ x, l.count x = @List.count _ instBEqOfDecidableEq x l := by
    intro x
    induction l with
    | nil => rfl
    | cons y ys ih => simp [List.count_cons, ih, beq_eq_decide]
  calc (l.dedup.map (fun x => l.count x)).sum
      = (l.dedup.map (fun x => @List.count _ instBEqOfDecidableEq x l)).sum := by
        simp only [h]
    _ = l.length := List.sum_map_count_dedup_eq_length l

/-- Claim C4: for a non-empty alignment, `Compress` returns weights that
are each at least 1 and sum to the alignment length before compression;
afterwards the alignment length equals the number of distinct column
patterns (the size of the weight vector) and every sequence is truncated
to exactly that width. -/
theorem C4_Compress (a : align) (hV : Valid a) (hI : Inv a) (hne : 1 ≤ a.length) :
    (∀ w ∈ (Compress a).1, 1 ≤ w) ∧
    (((Compress a).1.sum : Int) = a.length) ∧
    ((Compress a).2.length = ((Compress a).1.length : Int)) ∧
    (∀ i ∈ a.seqs,
      ((Compress a).2.store.getD i emptySeq).sequence.length = (Compress a).1.length) := by
  refine ⟨?_, ?_, ?_, ?_⟩
  · intro w hw
    rcases List.mem_map.mp hw with ⟨p, hp, hpw⟩
    have hmem : p ∈ columns a := mem_columns_of_mem_compressPats a hp
    have := List.count_pos_iff.mpr hmem
    omega
  · have hperm : ((compressPats a).map (fun p => (columns a).count p)).Perm
        (((columns a).dedup).map (fun p => (columns a).count p)) :=
      (compressPats_perm a).map _
    have hsum := hperm.sum_eq
    simp only [Compress]
    rw [hsum]
    have hcount := sum_map_count_dedup (columns a)
    have hlen : (columns a).length = a.length.toNat := by
      simp [columns]
    rw [hcount, hlen]
    omega
  · simp [Compress]
  · intro i hi
    rcases exists_enum_of_mem hi with ⟨k, hk⟩
    have := updateRows_getD a (fun j s =>
      { s with sequence := compressPats a |>.map (fun p => p.getD j ' ') }) hV hk
    simp only [Compress, updateRows] at this ⊢
    rw [this]
    simp

theorem C4_Compress_witness :
    (∀ w ∈ (Compress exCompress).1, 1 ≤ w) ∧
    (((Compress exCompress).1.sum : Int) = exCompress.length) ∧
    ((Compress exCompress).2.length = ((Compress exCompress).1.length : Int)) ∧
    (∀ i ∈ exCompress.seqs,
      ((Compress exCompress).2.store.getD i emptySeq).sequence.length
        = (Compress exCompress).1.length) :=
  C4_Compress exCompress (by decide) (by decide) (by decide)

end Goalign

namespace Goalign

/-- Claim C9: `K2PModel.Distance` computes the transition and transversion
proportions over the selected sites (weighted when weights are given),
returns `-0.5*ln(1-2P-Q) - 0.25*ln(1-2Q)` when that value is positive and 0
otherwise, has no error path (it is a total function), and never returns a
negative value. -/
theorem C9_K2PDistance (seq1 seq2 : List Char) (selected : List Bool)
    (weights : Option (List ℚ)) :
    0 ≤ K2PDistance seq1 seq2 selected weights ∧
    (0 < k2pFormula seq1 seq2 selected weights →
      K2PDistance seq1 seq2 selected weights = k2pFormula seq1 seq2 selected weights) ∧
    (k2pFormula seq1 seq2 selected weights ≤ 0 →
      K2PDistance seq1 seq2 selected weights = 0) := by
  by_cases h : k2pFormula seq1 seq2 selected weights > 0
  · refine ⟨?_, fun _ => ?_, fun hle => absurd h (not_lt_of_le hle)⟩
    · rw [K2PDistance, if_pos h]
      exact le_of_lt h
    · rw [K2PDistance, if_pos h]
  · refine ⟨?_, fun hgt => absurd hgt h, fun _ => ?_⟩
    · rw [K2PDistance, if_neg h]
    · rw [K2PDistance, if_neg h]

theorem C9_K2PDistance_witness :
    0 ≤ K2PDistance ['A', 'C'] ['A', 'C'] [true, true] none ∧
    K2PDistance ['A', 'C'] ['A', 'C'] [true, true] none = 0 := by
  have hcm : countMutations ['A', 'C'] ['A', 'C'] [true, true] none = (0, 0, 2) := by
    with_unfolding_all decide
  have hP : k2pP ['A', 'C'] ['A', 'C'] [true, true] none = 0 := by
    rw [k2pP, hcm]
    norm_num
  have hQ : k2pQ ['A', 'C'] ['A', 'C'] [true, true] none = 0 := by
    rw [k2pQ, hcm]
    norm_num
  have hf : k2pFormula ['A', 'C'] ['A', 'C'] [true, true] none = 0 := by
    rw [k2pFormula, hP, hQ]
    norm_num [Real.log_one]
  exact ⟨(C9_K2PDistance ['A', 'C'] ['A', 'C'] [true, true] none).1,
    (C9_K2PDistance ['A', 'C'] ['A', 'C'] [true, true] none).2.2 (le_of_eq hf)⟩

end Goalign

namespace Goalign

theorem AddSequenceChar_ok_cond (a : align) (n : String) (sq : List Char)
    (cm : String) (a' : align) (h : AddSequenceChar a n sq cm = Eff.ok a') :
    a.length = -1 ∨ a.length = (sq.length : Int) := by
  unfold AddSequenceChar at h
  split at h
  · cases h
  · rename_i hcond
    push_neg at hcond
    by_cases h1 : a.length = -1
    · exact Or.inl h1
    · exact Or.inr (hcond h1)

theorem Inv_AddSequenceChar_ok (a : align) (n : String) (sq : List Char)
    (cm : String) (a' : align) (hV : Valid a) (hI : Inv a)
    (h : AddSequenceChar a n sq cm = Eff.ok a') : Inv a' := by
  have hcond := AddSequenceChar_ok_cond a n sq cm a' h
  rw [AddSequenceChar_ok_state a n sq cm a' h]
  right
  refine ⟨by positivity, ?_⟩
  intro i hi
  rcases List.mem_append.mp hi with h1 | h1
  · rw [getD_append_left_of_lt _ _ _ (hV.2 i h1)]
    rcases hcond with hc | hc
    · rcases hI with ⟨_, hnil⟩ | ⟨hge, _⟩
      · rw [hnil] at h1
        cases h1
      · omega
    · rcases hI with ⟨hm1, hnil⟩ | ⟨_, hall⟩
      · rw [hnil] at h1
        cases h1
      · rw [hall i h1, hc]
  · simp only [List.mem_singleton] at h1
    subst h1
    rw [getD_append_self]

theorem RemoveGapSites_store (a : align) (cutoff : ℚ) (ends : Bool) :
    (RemoveGapSites a cutoff ends).store
      = (updateRows a (fun _ s => removeSitesRow (removedSites a (cutoffNorm cutoff) ends) s)).store := rfl

theorem RemoveGapSites_length (a : align) (cutoff : ℚ) (ends : Bool) :
    (RemoveGapSites a cutoff ends).length
      = a.length - ((removedSites a (cutoffNorm cutoff) ends).length : Int) := rfl

theorem RemoveGapSites_seqs (a : align) (cutoff : ℚ) (ends : Bool) :
    (RemoveGapSites a cutoff ends).seqs = a.seqs := rfl

theorem removeSitesRow_sequence (rl : List Nat) (s : seq) :
    (removeSitesRow rl s).sequence = rl.foldl (fun sq p => sq.eraseIdx p) s.sequence := rfl

theorem Inv_RemoveGapSites (a : align) (cutoff : ℚ) (ends : Bool)
    (hV : Valid a) (hI : Inv a) :
    Inv (RemoveGapSites a cutoff ends) ∧ Valid (RemoveGapSites a cutoff ends)
      ∧ (RemoveGapSites a cutoff ends).seqs = a.seqs := by
  have hpw := removedSites_pairwise a (cutoffNorm cutoff) ends
  have hlt := removedSites_lt a (cutoffNorm cutoff) ends
  have hle := removedSites_length_le a (cutoffNorm cutoff) ends
  refine ⟨?_, ⟨hV.1, ?_⟩, rfl⟩
  · rcases hI with ⟨hm1, hnil⟩ | ⟨hge, hall⟩
    · left
      constructor
      · rw [RemoveGapSites_length, hm1]
        have h0 : a.length.toNat = 0 := by rw [hm1]; rfl
        omega
      · rw [RemoveGapSites_seqs]
        exact hnil
    · right
      constructor
      · rw [RemoveGapSites_length]
        omega
      · intro i hi
        rw [RemoveGapSites_seqs] at hi
        rcases exists_enum_of_mem hi with ⟨k, hk⟩
        have hrow := updateRows_getD a
          (fun _ s => removeSitesRow (removedSites a (cutoffNorm cutoff) ends) s) hV hk
        rw [RemoveGapSites_length, RemoveGapSites_store, hrow, removeSitesRow_sequence]
        have hrowlen : (a.store.getD i emptySeq).sequence.length = a.length.toNat := by
          have := hall i hi
          omega
        have hbd : ∀ p ∈ removedSites a (cutoffNorm cutoff) ends,
            p < (a.store.getD i emptySeq).sequence.length := by
          intro p hp
          rw [hrowlen]
          exact hlt p hp
        have hfl := length_foldl_eraseIdx (removedSites a (cutoffNorm cutoff) ends)
          (a.store.getD i emptySeq).sequence hpw hbd
        rw [hfl, hrowlen]
        omega
  · intro i hi
    rw [RemoveGapSites_seqs] at hi
    rw [RemoveGapSites_store, updateRows_store_length]
    exact hV.2 i hi

theorem Inv_trim_state (a : align) (t : Int) (fs : Bool) (hV : Valid a) (hI : Inv a)
    (h0 : 0 ≤ t) (hlt : t < a.length) :
    Inv { updateRows a (fun _ s => trimSeq t.toNat fs s) with length := a.length - t } ∧
    Valid { updateRows a (fun _ s => trimSeq t.toNat fs s) with length := a.length - t } := by
  have hst : ({ updateRows a (fun _ s => trimSeq t.toNat fs s) with
      length := a.length - t } : align).store = (updateRows a (fun _ s => trimSeq t.toNat fs s)).store := rfl
  have hsq : ({ updateRows a (fun _ s => trimSeq t.toNat fs s) with
      length := a.length - t } : align).seqs = a.seqs := rfl
  have hln : ({ updateRows a (fun _ s => trimSeq t.toNat fs s) with
      length := a.length - t } : align).length = a.length - t := rfl
  constructor
  · right
    constructor
    · rw [hln]
      omega
    · intro i hi
      rw [hsq] at hi
      rcases exists_enum_of_mem hi with ⟨k, hk⟩
      have hrow := updateRows_getD a (fun _ s => trimSeq t.toNat fs s) hV hk
      rw [hln, hst, hrow, trimSeq_sequence]
      have hlen : ((a.store.getD i emptySeq).sequence.length : Int) = a.length := by
        rcases hI with ⟨_, hnil⟩ | ⟨_, hall⟩
        · rw [hnil] at hi
          cases hi
        · exact hall i hi
      cases fs <;> simp only [if_true, if_false, Bool.false_eq_true, if_neg,
        List.length_drop, List.length_take] <;> omega
  · refine ⟨hV.1, ?_⟩
    intro i hi
    rw [hsq] at hi
    rw [hst, updateRows_store_length]
    exact hV.2 i hi

theorem Inv_TrimSequences (a : align) (t : Int) (fs : Bool) (hV : Valid a) (hI : Inv a) :
    (∀ a', TrimSequences a t fs = Eff.ok a' → Inv a' ∧ Valid a') ∧
    (∀ m a', TrimSequences a t fs = Eff.fail m a' → a' = a) := by
  constructor
  · intro a' h
    unfold TrimSequences at h
    split at h
    · cases h
    · split at h
      · cases h
      · rename_i h1 h2
        cases h
        push_neg at h1 h2
        exact Inv_trim_state a t fs hV hI h1 h2
  · intro m a' h
    unfold TrimSequences at h
    split at h
    · cases h
      rfl
    · split at h
      · cases h
        rfl
      · cases h

theorem maskSeq_length (rep : Char) (start length alen : Int) (s : seq) :
    (maskSeq rep start length alen s).sequence.length = s.sequence.length := by
  simp [maskSeq]

theorem Inv_mask_state (a : align) (rep : Char) (start len : Int)
    (hV : Valid a) (hI : Inv a) :
    Inv (updateRows a (fun _ s => maskSeq rep start len a.length s)) ∧
    Valid (updateRows a (fun _ s => maskSeq rep start len a.length s)) := by
  constructor
  · rcases hI with ⟨hm1, hnil⟩ | ⟨hge, hall⟩
    · left
      exact ⟨hm1, hnil⟩
    · right
      refine ⟨hge, ?_⟩
      intro i hi
      rcases exists_enum_of_mem hi with ⟨k, hk⟩
      have hrow := updateRows_getD a (fun _ s => maskSeq rep start len a.length s) hV hk
      show (((updateRows a _).store.getD i emptySeq).sequence.length : Int) = _
      rw [hrow, maskSeq_length]
      exact hall i hi
  · exact Valid_updateRows a _ hV

theorem Mask_state_shape (a : align) (start len : Int) :
    Mask a start len = Eff.fail "Mask: Start position cannot be < 0" a ∨
    Mask a start len = Eff.fail "Mask: Start position cannot be > align length" a ∨
    (∃ rep, Mask a start len
        = Eff.fail "Mask: Cannot mask alignment, wrong alphabet"
            (updateRows a (fun _ s => maskSeq rep start len a.length s)) ∨
      Mask a start len
        = Eff.ok (updateRows a (fun _ s => maskSeq rep start len a.length s))) := by
  unfold Mask
  split
  · exact Or.inl rfl
  · split
    · exact Or.inr (Or.inl rfl)
    · right; right
      by_cases hA : a.alphabet = AMINOACIDS
      · exact ⟨ALL_AMINO, Or.inr (by simp [hA, AMINOACIDS, NUCLEOTIDS])⟩
      · by_cases hN : a.alphabet = NUCLEOTIDS
        · refine ⟨ALL_NUCLE, Or.inr ?_⟩
          simp only [AMINOACIDS] at hA
          simp only [NUCLEOTIDS] at hN
          simp [hA, hN, AMINOACIDS, NUCLEOTIDS]
        · refine ⟨'.', Or.inl ?_⟩
          simp only [AMINOACIDS] at hA
          simp only [NUCLEOTIDS] at hN
          simp [hA, hN, AMINOACIDS, NUCLEOTIDS]

theorem Compress_store (a : align) :
    (Compress a).2.store = (updateRows a (fun j s =>
      { s with sequence := compressPats a |>.map (fun p => p.getD j ' ') })).store := rfl

theorem Compress_length (a : align) :
    (Compress a).2.length = ((compressPats a).length : Int) := rfl

theorem Compress_seqs (a : align) : (Compress a).2.seqs = a.seqs := rfl

theorem Inv_Compress (a : align) (hV : Valid a) (hI : Inv a) :
    Inv (Compress a).2 ∧ Valid (Compress a).2 := by
  constructor
  · right
    constructor
    · rw [Compress_length]
      exact_mod_cast Int.ofNat_nonneg _
    · intro i hi
      rw [Compress_seqs] at hi
      rcases exists_enum_of_mem hi with ⟨k, hk⟩
      have hrow := updateRows_getD a (fun j s =>
        { s with sequence := compressPats a |>.map (fun p => p.getD j ' ') }) hV hk
      rw [Compress_length, Compress_store, hrow]
      simp
  · refine ⟨hV.1, ?_⟩
    intro i hi
    rw [Compress_seqs] at hi
    rw [Compress_store, updateRows_store_length]
    exact hV.2 i hi

end Goalign

namespace Goalign

theorem set_getD_self {α : Type} (l : List α) (i : Nat) (d : α) (h : i < l.length) :
    l.set i (l.getD i d) = l := by
  apply List.ext_getElem?
  intro j
  rw [List.getElem?_set]
  by_cases hij : i = j
  · subst hij
    simp [h, List.getD_eq_getElem?_getD, List.getElem?_eq_getElem h]
  · rw [if_neg hij]

theorem names_sync_keys (a : align) (hS : SyncMap a) :
    keys a.seqmap = a.seqs.map (fun i => (a.store.getD i emptySeq).name) := by
  rw [hS.1]
  simp [keys]

theorem find?_pairs_of_mem {l : List Nat} {f : Nat → String} {i : Nat}
    (hi : i ∈ l) (hnd : (l.map f).Nodup) :
    (l.map (fun j => (f j, j))).find? (fun p => p.1 == f i) = some (f i, i) := by
  induction l with
  | nil => cases hi
  | cons j rest ih =>
    simp only [List.map_cons, List.nodup_cons] at hnd
    rcases List.mem_cons.mp hi with heq | htail
    · subst heq
      simp only [List.map_cons]
      rw [List.find?_cons_of_pos _ (by simp)]
    · by_cases hfj : f j = f i
      · exfalso
        exact hnd.1 (hfj ▸ List.mem_map_of_mem f htail)
      · simp only [List.map_cons]
        rw [List.find?_cons_of_neg _ (by simpa using hfj), ih htail hnd.2]

theorem lookupName_sync (a : align) (hS : SyncMap a) {i : Nat} (hi : i ∈ a.seqs) :
    lookupName a.seqmap ((a.store.getD i emptySeq).name) = some i := by
  rw [lookupName, hS.1]
  rw [find?_pairs_of_mem hi hS.2]
  rfl

theorem lookupName_isSome_iff (m : List (String × Nat)) (n : String) :
    (lookupName m n).isSome = true ↔ n ∈ keys m := by
  rw [lookupName]
  constructor
  · intro h
    cases hf : m.find? (fun p => p.1 == n) with
    | none => rw [hf] at h; cases h
    | some p =>
      have hp := List.find?_some hf
      have hm := List.mem_of_find?_eq_some hf
      simp only [beq_iff_eq] at hp
      rw [← hp]
      exact List.mem_map_of_mem Prod.fst hm
  · intro h
    rcases List.mem_map.mp h with ⟨p, hp, hpn⟩
    cases hf : m.find? (fun q => q.1 == n) with
    | none =>
      have := List.find?_eq_none.mp hf p hp
      simp [hpn] at this
    | some q => simp [hf]

theorem lookupName_keys_of_none {m : List (String × Nat)} {n : String}
    (h : lookupName m n = none) : n ∉ keys m := by
  intro hmem
  have := (lookupName_isSome_iff m n).mpr hmem
  rw [h] at this
  cases this

theorem freshName_of_not_mem {ks : List String} {name : String} (h : name ∉ ks) :
    freshName ks name = name := by
  rw [freshName]
  rw [List.find?_cons_of_pos]
  · rfl
  · simpa using h

theorem lookupName_append_single {m : List (String × Nat)} {n : String} (v : Nat)
    (h : n ∉ keys m) :
    lookupName (m ++ [(n, v)]) n = some v := by
  induction m with
  | nil => simp [lookupName]
  | cons p rest ih =>
    simp only [keys, List.map_cons, List.mem_cons, not_or] at h
    show lookupName ((p :: rest) ++ [(n, v)]) n = some v
    rw [List.cons_append, lookupName,
      List.find?_cons_of_neg _ (by simpa using fun hc => h.1 hc.symm)]
    exact ih (by simpa [keys] using h.2)

theorem AddSequenceChar_no_collision (a : align) (n : String) (xs : List Char)
    (cm : String) (hn : n ∉ keys a.seqmap) (hlen : a.length = (xs.length : Int)) :
    AddSequenceChar a n xs cm = Eff.ok { a with
      length := (xs.length : Int)
      store := a.store ++ [⟨n, xs, cm⟩]
      seqmap := a.seqmap ++ [(n, a.store.length)]
      seqs := a.seqs ++ [a.store.length] } := by
  rw [AddSequenceChar]
  rw [if_neg (by push_neg; intro _; rw [hlen])]
  rw [freshName_of_not_mem hn]

end Goalign

namespace Goalign

theorem concatLoop1_spec (c : align) (hLc : 0 ≤ c.length) :
    ∀ (l : List Nat) (st : align), l.Nodup → (∀ i ∈ l, i ∈ st.seqs) →
      Valid st → SyncMap st →
    ∃ st', concatLoop1 c l st = Eff.ok st' ∧
      st'.seqmap = st.seqmap ∧ st'.seqs = st.seqs ∧ st'.length = st.length ∧
      st'.store.length = st.store.length ∧
      (∀ j, j ∉ l → st'.store.getD j emptySeq = st.store.getD j emptySeq) ∧
      (∀ j, (st'.store.getD j emptySeq).name = (st.store.getD j emptySeq).name) ∧
      (∀ j ∈ l, (st'.store.getD j emptySeq).sequence =
        (st.store.getD j emptySeq).sequence ++
          (if (lookupName c.seqmap ((st.store.getD j emptySeq).name)).isSome then ([] : List Char)
           else List.replicate c.length.toNat GAP)) := by
  intro l
  induction l with
  | nil =>
    intro st _ _ _ _
    exact ⟨st, rfl, rfl, rfl, rfl, rfl, fun j _ => rfl, fun j => rfl,
      fun j hj => absurd hj (List.not_mem_nil j)⟩
  | cons i rest ih =>
    intro st hnd hsub hV hS
    have hndr := List.nodup_cons.mp hnd
    have hiseqs : i ∈ st.seqs := hsub i (List.mem_cons_self _ _)
    have hibd : i < st.store.length := hV.2 i hiseqs
    by_cases hlook : (lookupName c.seqmap ((st.store.getD i emptySeq).name)).isSome = true
    · have hstep : concatLoop1 c (i :: rest) st = concatLoop1 c rest st := by
        rw [concatLoop1, if_pos hlook]
      rcases ih st hndr.2 (fun j hj => hsub j (List.mem_cons_of_mem _ hj)) hV hS
        with ⟨st', heq, hmap, hseqs, hlen, hslen, hout, hnames, happ⟩
      refine ⟨st', hstep.trans heq, hmap, hseqs, hlen, hslen, ?_, hnames, ?_⟩
      · intro j hj
        exact hout j (fun hr => hj (List.mem_cons_of_mem _ hr))
      · intro j hj
        rcases List.mem_cons.mp hj with hji | hjr
        · subst hji
          rw [hout j hndr.1, if_pos hlook, List.append_nil]
        · exact happ j hjr
    · have hgaps : goRepeat GAP c.length = Eff.ok (List.replicate c.length.toNat GAP) := by
        rw [goRepeat, if_neg (not_lt_of_le hLc)]
      have hlookup := lookupName_sync st hS hiseqs
      have happend : appendToSequence st ((st.store.getD i emptySeq).name)
          (List.replicate c.length.toNat GAP)
          = Eff.ok (padRow st i (List.replicate c.length.toNat GAP)) := by
        rw [appendToSequence, hlookup]
      have hstep : concatLoop1 c (i :: rest) st
          = concatLoop1 c rest (padRow st i (List.replicate c.length.toNat GAP)) := by
        rw [concatLoop1, if_neg hlook]
        simp only [hgaps, happend]
      set st1 : align := padRow st i (List.replicate c.length.toNat GAP) with hst1
      have hst1get_ne : ∀ j, j ≠ i → st1.store.getD j emptySeq = st.store.getD j emptySeq := by
        intro j hj
        exact getD_set_ne _ _ _ (fun h => hj h.symm)
      have hst1get_i : st1.store.getD i emptySeq
          = { st.store.getD i emptySeq with
              sequence := (st.store.getD i emptySeq).sequence
                ++ List.replicate c.length.toNat GAP } :=
        getD_set_self _ _ _ _ hibd
      have hst1names : ∀ j, (st1.store.getD j emptySeq).name = (st.store.getD j emptySeq).name := by
        intro j
        by_cases hji : j = i
        · subst hji
          rw [hst1get_i]
        · rw [hst1get_ne j hji]
      have hst1slen : st1.store.length = st.store.length := List.length_set _ _ _
      have hV1 : Valid st1 := by
        refine ⟨hV.1, ?_⟩
        intro j hj
        rw [hst1slen]
        exact hV.2 j hj
      have hS1 : SyncMap st1 := by
        constructor
        · show st.seqmap = st.seqs.map _
          rw [hS.1]
          apply List.map_congr_left
          intro j hj
          rw [hst1names j]
        · show (st.seqs.map _).Nodup
          have : st.seqs.map (fun j => (st1.store.getD j emptySeq).name)
              = st.seqs.map (fun j => (st.store.getD j emptySeq).name) :=
            List.map_congr_left (fun j _ => hst1names j)
          rw [this]
          exact hS.2
      rcases ih st1 hndr.2 (fun j hj => hsub j (List.mem_cons_of_mem _ hj)) hV1 hS1
        with ⟨st', heq, hmap, hseqs, hlen, hslen, hout, hnames, happ⟩
      refine ⟨st', hstep.trans heq, hmap, hseqs, hlen, hslen.trans hst1slen, ?_, ?_, ?_⟩
      · intro j hj
        rw [hout j (fun hr => hj (List.mem_cons_of_mem _ hr)),
          hst1get_ne j (fun hji => hj (hji ▸ List.mem_cons_self _ _))]
      · intro j
        rw [hnames j, hst1names j]
      · intro j hj
        rcases List.mem_cons.mp hj with hji | hjr
        · subst hji
          rw [hout j hndr.1, hst1get_i, if_neg hlook]
        · rw [happ j hjr, hst1get_ne j (fun hji => hndr.1 (hji ▸ hjr))]
end Goalign

namespace Goalign

theorem padRow_store_getD_ne (a : align) (i : Nat) (xs : List Char) {j : Nat} (hj : j ≠ i) :
    (padRow a i xs).store.getD j emptySeq = a.store.getD j emptySeq :=
  getD_set_ne _ _ _ (fun h => hj h.symm)

theorem padRow_store_getD_self (a : align) (i : Nat) (xs : List Char)
    (h : i < a.store.length) :
    (padRow a i xs).store.getD i emptySeq
      = { a.store.getD i emptySeq with
          sequence := (a.store.getD i emptySeq).sequence ++ xs } :=
  getD_set_self _ _ _ _ h

theorem padRow_store_length (a : align) (i : Nat) (xs : List Char) :
    (padRow a i xs).store.length = a.store.length := List.length_set _ _ _

theorem Valid_padRow (a : align) (i : Nat) (xs : List Char) (hV : Valid a) :
    Valid (padRow a i xs) := by
  refine ⟨hV.1, ?_⟩
  intro j hj
  rw [padRow_store_length]
  exact hV.2 j hj

theorem SyncMap_padRow (a : align) (i : Nat) (xs : List Char) (hV : Valid a)
    (hS : SyncMap a) : SyncMap (padRow a i xs) := by
  have hnames : ∀ j, ((padRow a i xs).store.getD j emptySeq).name
      = (a.store.getD j emptySeq).name := by
    intro j
    by_cases hji : j = i
    · subst hji
      by_cases hib : j < a.store.length
      · rw [padRow_store_getD_self a j xs hib]
      · have heq2 : (padRow a j xs).store.getD j emptySeq = a.store.getD j emptySeq := by
          rw [padRow]
          rw [List.set_eq_of_length_le (by omega)]
        exact congrArg seq.name heq2
    · rw [padRow_store_getD_ne a i xs hji]
  constructor
  · show a.seqmap = _
    rw [hS.1]
    exact (List.map_congr_left (fun j _ => by rw [hnames j])).symm
  · show (a.seqs.map _).Nodup
    have : a.seqs.map (fun j => ((padRow a i xs).store.getD j emptySeq).name)
        = a.seqs.map (fun j => (a.store.getD j emptySeq).name) :=
      List.map_congr_left (fun j _ => hnames j)
    rw [this]
    exact hS.2

theorem concatLoop2_spec (c : align) (aLen : Int) (hLa : 0 ≤ aLen) :
    ∀ (l : List Nat) (st : align),
      (∀ j ∈ l, j < c.store.length) →
      ((l.map (fun j => (c.store.getD j emptySeq).name)).Nodup) →
      (∀ j ∈ l, ((c.store.getD j emptySeq).sequence.length : Int) = c.length) →
      Valid st → SyncMap st → st.length = aLen →
      (∀ i ∈ st.seqs, (∃ j ∈ l, (c.store.getD j emptySeq).name
          = (st.store.getD i emptySeq).name) →
        ((st.store.getD i emptySeq).sequence.length : Int) = aLen) →
      (∀ i ∈ st.seqs, (¬∃ j ∈ l, (c.store.getD j emptySeq).name
          = (st.store.getD i emptySeq).name) →
        ((st.store.getD i emptySeq).sequence.length : Int) = aLen + c.length) →
      ∃ st', concatLoop2 c l st none = Eff.ok (st', none) ∧
        Valid st' ∧ SyncMap st' ∧ st'.length = aLen ∧
        (∀ i ∈ st'.seqs, ((st'.store.getD i emptySeq).sequence.length : Int)
          = aLen + c.length) := by
  intro l
  induction l with
  | nil =>
    intro st _ _ _ hV hS hlen hpend hdone
    refine ⟨st, rfl, hV, hS, hlen, ?_⟩
    intro i hi
    exact hdone i hi (by simp)
  | cons j rest ih =>
    intro st hbd hnamesnd hclen hV hS hlen hpend hdone
    have hjbd : j < c.store.length := hbd j (List.mem_cons_self _ _)
    rw [List.map_cons] at hnamesnd
    have hndr := List.nodup_cons.mp hnamesnd
    by_cases hin : (lookupName st.seqmap ((c.store.getD j emptySeq).name)).isSome = true
    · -- the name of the c row already exists in st: plain append
      have hmemkeys : (c.store.getD j emptySeq).name ∈ keys st.seqmap :=
        (lookupName_isSome_iff _ _).mp hin
      rw [names_sync_keys st hS] at hmemkeys
      rcases List.mem_map.mp hmemkeys with ⟨i0, hi0, hni0⟩
      have hlook0 : lookupName st.seqmap ((c.store.getD j emptySeq).name) = some i0 := by
        rw [← hni0]
        exact lookupName_sync st hS hi0
      have hi0bd : i0 < st.store.length := hV.2 i0 hi0
      have happend : appendToSequence st ((c.store.getD j emptySeq).name)
          ((c.store.getD j emptySeq).sequence)
          = Eff.ok (padRow st i0 ((c.store.getD j emptySeq).sequence)) := by
        rw [appendToSequence, hlook0]
      have hstep : concatLoop2 c (j :: rest) st none
          = concatLoop2 c rest (padRow st i0 ((c.store.getD j emptySeq).sequence)) none := by
        rw [concatLoop2]
        rw [if_pos hin]
        simp only [happend]
      set st1 : align := padRow st i0 ((c.store.getD j emptySeq).sequence) with hst1
      have hname_unique : ∀ i ∈ st.seqs, i ≠ i0 →
          (st.store.getD i emptySeq).name ≠ (c.store.getD j emptySeq).name := by
        intro i hi hne hcon
        have h2 := hS.2
        have hinj := List.inj_on_of_nodup_map h2
        exact hne (hinj hi hi0 (hcon.trans hni0.symm))
      have hget1 : ∀ i, i ≠ i0 → st1.store.getD i emptySeq = st.store.getD i emptySeq :=
        fun i hi => padRow_store_getD_ne st i0 _ hi
      have hget1i0 : st1.store.getD i0 emptySeq
          = { st.store.getD i0 emptySeq with
              sequence := (st.store.getD i0 emptySeq).sequence
                ++ (c.store.getD j emptySeq).sequence } :=
        padRow_store_getD_self st i0 _ hi0bd
      have hpend1 : ∀ i ∈ st1.seqs, (∃ q ∈ rest, (c.store.getD q emptySeq).name
          = (st1.store.getD i emptySeq).name) →
          ((st1.store.getD i emptySeq).sequence.length : Int) = aLen := by
        intro i hi hex
        rcases hex with ⟨q, hq, hqname⟩
        have hii0 : i ≠ i0 := by
          intro hii
          subst hii
          rw [hget1i0] at hqname
          apply hndr.1
          rw [← show (c.store.getD q emptySeq).name = (c.store.getD j emptySeq).name by
            rw [hqname]; exact hni0]
          exact List.mem_map_of_mem _ hq
        rw [hget1 i hii0]
        rw [hget1 i hii0] at hqname
        exact hpend i hi ⟨q, List.mem_cons_of_mem _ hq, hqname⟩
      have hdone1 : ∀ i ∈ st1.seqs, (¬∃ q ∈ rest, (c.store.getD q emptySeq).name
          = (st1.store.getD i emptySeq).name) →
          ((st1.store.getD i emptySeq).sequence.length : Int) = aLen + c.length := by
        intro i hi hnex
        by_cases hii0 : i = i0
        · subst hii0
          rw [hget1i0]
          have hlen0 : ((st.store.getD i emptySeq).sequence.length : Int) = aLen :=
            hpend i hi ⟨j, List.mem_cons_self _ _, hni0.symm⟩
          have hcl := hclen j (List.mem_cons_self _ _)
          simp only [List.length_append]
          push_cast
          omega
        · rw [hget1 i hii0]
          rw [hget1 i hii0] at hnex
          apply hdone i hi
          intro hex
          rcases hex with ⟨q, hq, hqname⟩
          rcases List.mem_cons.mp hq with hqj | hqr
          · subst hqj
            exact hname_unique i hi hii0 hqname.symm
          · exact hnex ⟨q, hqr, hqname⟩
      rcases ih st1 (fun q hq => hbd q (List.mem_cons_of_mem _ hq))
        hndr.2
        (fun q hq => hclen q (List.mem_cons_of_mem _ hq))
        (Valid_padRow st i0 _ hV) (SyncMap_padRow st i0 _ hV hS) hlen
        hpend1 hdone1 with ⟨st', heq, hV', hS', hlen', hrows'⟩
      exact ⟨st', hstep.trans heq, hV', hS', hlen', hrows'⟩
    · -- the c row's name is new: add a gap row, then append
      have hnotkeys : (c.store.getD j emptySeq).name ∉ keys st.seqmap := by
        intro hmem
        exact hin ((lookupName_isSome_iff _ _).mpr hmem)
      have hgaps : goRepeat GAP st.length
          = Eff.ok (List.replicate st.length.toNat GAP) := by
        rw [goRepeat, if_neg (by omega)]
      have hgl : (List.replicate st.length.toNat GAP).length = st.length.toNat :=
        List.length_replicate _ _
      have hadd : AddSequenceChar st ((c.store.getD j emptySeq).name)
          (List.replicate st.length.toNat GAP) ((c.store.getD j emptySeq).comment)
          = Eff.ok { st with
              length := ((List.replicate st.length.toNat GAP).length : Int)
              store := st.store ++ [⟨(c.store.getD j emptySeq).name,
                List.replicate st.length.toNat GAP, (c.store.getD j emptySeq).comment⟩]
              seqmap := st.seqmap ++ [((c.store.getD j emptySeq).name, st.store.length)]
              seqs := st.seqs ++ [st.store.length] } :=
        AddSequenceChar_no_collision st _ _ _ hnotkeys (by rw [hgl]; omega)
      set st1 : align := { st with
        length := ((List.replicate st.length.toNat GAP).length : Int)
        store := st.store ++ [⟨(c.store.getD j emptySeq).name,
          List.replicate st.length.toNat GAP, (c.store.getD j emptySeq).comment⟩]
        seqmap := st.seqmap ++ [((c.store.getD j emptySeq).name, st.store.length)]
        seqs := st.seqs ++ [st.store.length] } with hst1def
      have hV1 : Valid st1 := Valid_AddSequenceChar_ok st _ _ _ st1 hV
        (by rw [hadd, AddSequenceChar_ok_state st _ _ _ st1 hadd])
      have hS1 : SyncMap st1 := SyncMap_AddSequenceChar_ok st _ _ _ st1 hV hS hadd
      have hlook1 : lookupName st1.seqmap ((c.store.getD j emptySeq).name)
          = some st.store.length :=
        lookupName_append_single st.store.length hnotkeys
      have happend : appendToSequence st1 ((c.store.getD j emptySeq).name)
          ((c.store.getD j emptySeq).sequence)
          = Eff.ok (padRow st1 st.store.length ((c.store.getD j emptySeq).sequence)) := by
        rw [appendToSequence, hlook1]
      have hstep : concatLoop2 c (j :: rest) st none
          = concatLoop2 c rest
              (padRow st1 st.store.length ((c.store.getD j emptySeq).sequence)) none := by
        rw [concatLoop2]
        rw [if_neg hin]
        simp only [hgaps, hadd, happend]
      set st2 : align := padRow st1 st.store.length ((c.store.getD j emptySeq).sequence)
        with hst2def
      have hnew1 : st1.store.getD st.store.length emptySeq
          = ⟨(c.store.getD j emptySeq).name, List.replicate st.length.toNat GAP,
             (c.store.getD j emptySeq).comment⟩ := getD_append_self _ _ _
      have hold1 : ∀ i, i < st.store.length →
          st1.store.getD i emptySeq = st.store.getD i emptySeq := by
        intro i hi
        exact getD_append_left_of_lt _ _ _ hi
      have hst1slen : st1.store.length = st.store.length + 1 := by
        show (st.store ++ [_]).length = _
        simp
      have hget2new : st2.store.getD st.store.length emptySeq
          = { st1.store.getD st.store.length emptySeq with
              sequence := (st1.store.getD st.store.length emptySeq).sequence
                ++ (c.store.getD j emptySeq).sequence } :=
        padRow_store_getD_self st1 _ _ (by omega)
      have hget2old : ∀ i, i ≠ st.store.length →
          st2.store.getD i emptySeq = st1.store.getD i emptySeq :=
        fun i hi => padRow_store_getD_ne st1 _ _ hi
      have hV2 : Valid st2 := Valid_padRow st1 _ _ hV1
      have hS2 : SyncMap st2 := SyncMap_padRow st1 _ _ hV1 hS1
      have hlen2 : st2.length = aLen := by
        show st1.length = aLen
        show ((List.replicate st.length.toNat GAP).length : Int) = aLen
        rw [hgl]
        omega
      have hpend2 : ∀ i ∈ st2.seqs, (∃ q ∈ rest, (c.store.getD q emptySeq).name
          = (st2.store.getD i emptySeq).name) →
          ((st2.store.getD i emptySeq).sequence.length : Int) = aLen := by
        intro i hi hex
        rcases hex with ⟨q, hq, hqname⟩
        have hi2 : i ∈ st.seqs ∨ i = st.store.length := by
          have : i ∈ st.seqs ++ [st.store.length] := hi
          rcases List.mem_append.mp this with h1 | h1
          · exact Or.inl h1
          · exact Or.inr (by simpa using h1)
        rcases hi2 with hiold | hinew
        · have hibd : i < st.store.length := hV.2 i hiold
          rw [hget2old i (by omega), hold1 i hibd]
          rw [hget2old i (by omega), hold1 i hibd] at hqname
          exact hpend i hiold ⟨q, List.mem_cons_of_mem _ hq, hqname⟩
        · exfalso
          subst hinew
          rw [hget2new] at hqname
          rw [hnew1] at hqname
          apply hndr.1
          rw [← show (c.store.getD q emptySeq).name = (c.store.getD j emptySeq).name from hqname]
          exact List.mem_map_of_mem _ hq
      have hdone2 : ∀ i ∈ st2.seqs, (¬∃ q ∈ rest, (c.store.getD q emptySeq).name
          = (st2.store.getD i emptySeq).name) →
          ((st2.store.getD i emptySeq).sequence.length : Int) = aLen + c.length := by
        intro i hi hnex
        have hi2 : i ∈ st.seqs ∨ i = st.store.length := by
          have : i ∈ st.seqs ++ [st.store.length] := hi
          rcases List.mem_append.mp this with h1 | h1
          · exact Or.inl h1
          · exact Or.inr (by simpa using h1)
        rcases hi2 with hiold | hinew
        · have hibd : i < st.store.length := hV.2 i hiold
          rw [hget2old i (by omega), hold1 i hibd]
          rw [hget2old i (by omega), hold1 i hibd] at hnex
          apply hdone i hiold
          intro hex
          rcases hex with ⟨q, hq, hqname⟩
          rcases List.mem_cons.mp hq with hqj | hqr
          · subst hqj
            apply hnotkeys
            rw [names_sync_keys st hS, hqname]
            exact List.mem_map_of_mem _ hiold
          · exact hnex ⟨q, hqr, hqname⟩
        · subst hinew
          rw [hget2new, hnew1]
          have hcl := hclen j (List.mem_cons_self _ _)
          simp only [List.length_append, List.length_replicate]
          push_cast
          omega
      rcases ih st2 (fun q hq => hbd q (List.mem_cons_of_mem _ hq))
        hndr.2
        (fun q hq => hclen q (List.mem_cons_of_mem _ hq))
        hV2 hS2 hlen2 hpend2 hdone2 with ⟨st', heq, hV', hS', hlen', hrows'⟩
      exact ⟨st', hstep.trans heq, hV', hS', hlen', hrows'⟩

end Goalign

namespace Goalign

theorem concatScan_fold_const (L : Int) (hL : 0 ≤ L) :
    ∀ (rest : List seq), (∀ s ∈ rest, ((s.sequence.length : Int)) = L) →
    List.foldl (fun (st : Int × Option String) (s : seq) =>
      if st.1 = -1 then ((s.sequence.length : Int), st.2)
      else if st.1 ≠ (s.sequence.length : Int) then
        (st.1, some "Sequences of the new alignment do not have the same length...")
      else st) (L, none) rest = (L, none) := by
  intro rest
  induction rest with
  | nil => intro _; rfl
  | cons s rs ih =>
    intro h
    have hs := h s (List.mem_cons_self _ _)
    simp only [List.foldl_cons]
    rw [if_neg (by omega)]
    rw [if_neg (by omega)]
    exact ih (fun q hq => h q (List.mem_cons_of_mem _ hq))

theorem concatScan_const (L : Int) (hL : 0 ≤ L) (rs : List seq)
    (h : ∀ s ∈ rs, ((s.sequence.length : Int)) = L) :
    concatScan rs = ((if rs = [] then -1 else L), none) := by
  cases rs with
  | nil => rfl
  | cons s rest =>
    have hs := h s (List.mem_cons_self _ _)
    rw [if_neg (List.cons_ne_nil s rest)]
    simp only [concatScan, List.foldl_cons]
    rw [hs]
    exact concatScan_fold_const L hL rest (fun q hq => h q (List.mem_cons_of_mem _ hq))

/-- Under the structural invariants of both alignments (with nonnegative
lengths, excluding the negative `strings.Repeat` panic), `Concat` rejects an
alphabet mismatch without mutating the receiver and otherwise succeeds with
a rectangular result. -/
theorem Concat_Inv (a c : align) (hVa : Valid a) (hSa : SyncMap a) (hIa : Inv a)
    (hLa : 0 ≤ a.length) (hVc : Valid c) (hSc : SyncMap c) (hIc : Inv c)
    (hLc : 0 ≤ c.length) :
    (a.alphabet ≠ c.alphabet →
      Concat a c = Eff.fail "Alignments do not have the same alphabet" a) ∧
    (a.alphabet = c.alphabet → ∃ a', Concat a c = Eff.ok a' ∧ Inv a') := by
  have halla : ∀ i ∈ a.seqs, ((a.store.getD i emptySeq).sequence.length : Int) = a.length := by
    rcases hIa with ⟨hm1, _⟩ | ⟨_, h⟩
    · exact absurd hm1 (by omega)
    · exact h
  have hallc : ∀ j ∈ c.seqs, ((c.store.getD j emptySeq).sequence.length : Int) = c.length := by
    rcases hIc with ⟨hm1, _⟩ | ⟨_, h⟩
    · exact absurd hm1 (by omega)
    · exact h
  constructor
  · intro hne
    rw [Concat, if_pos hne]
  · intro halph
    obtain ⟨a1, h1, hmap1, hseqs1, hlen1, hslen1, hout1, hname1, hin1⟩ :=
      concatLoop1_spec c hLc a.seqs a hVa.1 (fun i hi => hi) hVa hSa
    have hVa1 : Valid a1 := by
      constructor
      · rw [hseqs1]
        exact hVa.1
      · intro i hi
        rw [hseqs1] at hi
        rw [hslen1]
        exact hVa.2 i hi
    have hSa1 : SyncMap a1 := by
      constructor
      · rw [hmap1, hseqs1]
        simp only [hname1]
        exact hSa.1
      · rw [hseqs1]
        simp only [hname1]
        exact hSa.2
    have hpend : ∀ i ∈ a1.seqs, (∃ j ∈ c.seqs, (c.store.getD j emptySeq).name
        = (a1.store.getD i emptySeq).name) →
        ((a1.store.getD i emptySeq).sequence.length : Int) = a.length := by
      intro i hi hex
      rw [hseqs1] at hi
      rcases hex with ⟨j, hj, hjn⟩
      have hlook : (lookupName c.seqmap ((a.store.getD i emptySeq).name)).isSome = true := by
        rw [lookupName_isSome_iff, names_sync_keys c hSc]
        rw [← hname1 i, ← hjn]
        exact List.mem_map_of_mem _ hj
      rw [hin1 i hi, if_pos hlook, List.append_nil]
      exact halla i hi
    have hdone : ∀ i ∈ a1.seqs, (¬∃ j ∈ c.seqs, (c.store.getD j emptySeq).name
        = (a1.store.getD i emptySeq).name) →
        ((a1.store.getD i emptySeq).sequence.length : Int) = a.length + c.length := by
      intro i hi hnex
      rw [hseqs1] at hi
      by_cases hlk : (lookupName c.seqmap ((a.store.getD i emptySeq).name)).isSome = true
      · exfalso
        rw [lookupName_isSome_iff, names_sync_keys c hSc] at hlk
        rcases List.mem_map.mp hlk with ⟨j, hj, hjn⟩
        exact hnex ⟨j, hj, by rw [hname1 i]; exact hjn⟩
      · rw [hin1 i hi, if_neg hlk]
        simp only [List.length_append, List.length_replicate]
        have h1i := halla i hi
        push_cast
        omega
    obtain ⟨st', h2, hV', hS', hlen', hrows'⟩ :=
      concatLoop2_spec c a.length hLa c.seqs a1 (fun j hj => hVc.2 j hj) hSc.2
        hallc hVa1 hSa1 hlen1 hpend hdone
    have hscan : concatScan (rows st')
        = ((if rows st' = [] then -1 else a.length + c.length), none) := by
      apply concatScan_const (a.length + c.length) (by omega)
      intro s hs
      simp only [rows, List.mem_map] at hs
      rcases hs with ⟨i, hi, rfl⟩
      exact hrows' i hi
    refine ⟨{ st' with length := if rows st' = [] then -1 else a.length + c.length },
      ?_, ?_⟩
    · rw [Concat, if_neg (fun hne => hne halph)]
      simp only [h1, h2, hscan]
    · by_cases hemp : rows st' = []
      · left
        constructor
        · show (if rows st' = [] then (-1 : Int) else a.length + c.length) = -1
          rw [if_pos hemp]
        · show st'.seqs = []
          simpa [rows] using hemp
      · right
        constructor
        · show 0 ≤ (if rows st' = [] then (-1 : Int) else a.length + c.length)
          rw [if_neg hemp]
          omega
        · intro i hi
          show ((st'.store.getD i emptySeq).sequence.length : Int)
            = (if rows st' = [] then (-1 : Int) else a.length + c.length)
          rw [if_neg hemp]
          exact hrows' i hi

end Goalign

namespace Goalign

/-- C1: the rectangularity invariant (`length == -1`, or every sequence has
exactly `length` symbols) holds for the resulting state of every mutating
operation — `AddSequenceChar`, `RemoveGapSites`, `TrimSequences`,
`Compress`, `Mask`, and `Concat` (the latter under the structural
invariants of both operands and nonnegative lengths, as a negative length
makes the Go `strings.Repeat` panic); in particular, `AddSequenceChar` with
a sequence whose length differs from that of an already non-empty alignment
fails without mutating the alignment. -/
theorem C1_rectangularity (a c : align) (hV : Valid a) (hI : Inv a) :
    (∀ n sq cm e, (AddSequenceChar a n sq cm).state = some e → Inv e) ∧
    (∀ n sq cm, a.length ≠ -1 → a.length ≠ (sq.length : Int) →
      AddSequenceChar a n sq cm
        = Eff.fail ("Sequence " ++ freshName (keys a.seqmap) n
            ++ " does not have same length as other sequences") a) ∧
    (∀ cutoff ends, Inv (RemoveGapSites a cutoff ends)) ∧
    (∀ t fs e, (TrimSequences a t fs).state = some e → Inv e) ∧
    Inv (Compress a).2 ∧
    (∀ start len e, (Mask a start len).state = some e → Inv e) ∧
    (SyncMap a → 0 ≤ a.length → Valid c → SyncMap c → Inv c → 0 ≤ c.length →
      ∀ e, (Concat a c).state = some e → Inv e) := by
  refine ⟨?_, ?_, ?_, ?_, ?_, ?_, ?_⟩
  · intro n sq cm e h
    cases heq : AddSequenceChar a n sq cm with
    | ok v =>
      rw [heq] at h
      simp only [Eff.state, Option.some.injEq] at h
      subst h
      exact Inv_AddSequenceChar_ok a n sq cm v hV hI heq
    | fail m v =>
      rw [heq] at h
      simp only [Eff.state, Option.some.injEq] at h
      subst h
      rw [AddSequenceChar_fail_state a n sq cm m v heq]
      exact hI
    | crash =>
      rw [heq] at h
      simp [Eff.state] at h
    | exit m =>
      rw [heq] at h
      simp [Eff.state] at h
  · intro n sq cm h1 h2
    simp only [AddSequenceChar]
    rw [if_pos ⟨h1, h2⟩]
  · intro cutoff ends
    exact (Inv_RemoveGapSites a cutoff ends hV hI).1
  · intro t fs e h
    cases heq : TrimSequences a t fs with
    | ok v =>
      rw [heq] at h
      simp only [Eff.state, Option.some.injEq] at h
      subst h
      exact ((Inv_TrimSequences a t fs hV hI).1 v heq).1
    | fail m v =>
      rw [heq] at h
      simp only [Eff.state, Option.some.injEq] at h
      subst h
      rw [(Inv_TrimSequences a t fs hV hI).2 m v heq]
      exact hI
    | crash =>
      rw [heq] at h
      simp [Eff.state] at h
    | exit m =>
      rw [heq] at h
      simp [Eff.state] at h
  · exact (Inv_Compress a hV hI).1
  · intro start len e h
    rcases Mask_state_shape a start len with h1 | h1 | ⟨rep, h1 | h1⟩
    · rw [h1] at h
      simp only [Eff.state, Option.some.injEq] at h
      subst h
      exact hI
    · rw [h1] at h
      simp only [Eff.state, Option.some.injEq] at h
      subst h
      exact hI
    · rw [h1] at h
      simp only [Eff.state, Option.some.injEq] at h
      subst h
      exact (Inv_mask_state a rep start len hV hI).1
    · rw [h1] at h
      simp only [Eff.state, Option.some.injEq] at h
      subst h
      exact (Inv_mask_state a rep start len hV hI).1
  · intro hS hLa hVc hSc hIc hLc e h
    have hCI := Concat_Inv a c hV hS hI hLa hVc hSc hIc hLc
    by_cases halph : a.alphabet = c.alphabet
    · rcases hCI.2 halph with ⟨a', heq, hInv⟩
      rw [heq] at h
      simp only [Eff.state, Option.some.injEq] at h
      subst h
      exact hInv
    · rw [hCI.1 halph] at h
      simp only [Eff.state, Option.some.injEq] at h
      subst h
      exact hI

/-- Concrete instantiation: the two-row alignment `AB`/`CD` satisfies the
preconditions, and self-concatenation yields a rectangular state. -/
theorem C1_rectangularity_witness :
    Inv ((Concat exTrim exTrim).state.getD exTrim) := by
  have hst : (Concat exTrim exTrim).state
      = some ((Concat exTrim exTrim).state.getD exTrim) := by decide
  exact (C1_rectangularity exTrim exTrim (by decide) (by decide)).2.2.2.2.2.2
    (by decide) (by decide) (by decide) (by decide) (by decide) (by decide)
    _ hst

end Goalign
